import Mathlib

/-!
# Verification of the sliding-window plane extractor

A shallow embedding of
`convex_plane_decomposition/src/sliding_window_plane_extraction/SlidingWindowPlaneExtractor.cpp`.

Heights and world coordinates are modelled as rationals; a non-finite
height (NaN) is `Option.none`.  External collaborators (the Eigen
self-adjoint eigensolver, `std::sqrt`, `std::acos`, the grid-map
world-to-index lookup, OpenCV's connected components, the CGAL RANSAC
detector and the orientation utility) are fields of an `Externals`
record, so theorems quantify over every behaviour the collaborators may
have, and counterexamples instantiate them with concrete functions that
agree with the real collaborator at every point where they are consulted.
-/

attribute [local semireducible] Rat.add Rat.mul Rat.inv Rat.sub

namespace SWPE

/-- 3D vector over ℚ (models Eigen::Vector3d). -/
structure Vec3 where
  x : ℚ
  y : ℚ
  z : ℚ
deriving DecidableEq, Repr

namespace Vec3

def zero : Vec3 := ⟨0, 0, 0⟩

/-- Eigen::Vector3d::UnitZ(). -/
def unitZ : Vec3 := ⟨0, 0, 1⟩

def add (a b : Vec3) : Vec3 := ⟨a.x + b.x, a.y + b.y, a.z + b.z⟩

def neg (a : Vec3) : Vec3 := ⟨-a.x, -a.y, -a.z⟩

def smul (q : ℚ) (a : Vec3) : Vec3 := ⟨q * a.x, q * a.y, q * a.z⟩

def dot (a b : Vec3) : ℚ := a.x * b.x + a.y * b.y + a.z * b.z

/-- Squared Euclidean norm. -/
def normSq (a : Vec3) : ℚ := a.x * a.x + a.y * a.y + a.z * a.z

end Vec3

/-- Symmetric 3×3 matrix over ℚ (models Eigen::Matrix3d as used here). -/
structure Mat3 where
  m00 : ℚ
  m01 : ℚ
  m02 : ℚ
  m10 : ℚ
  m11 : ℚ
  m12 : ℚ
  m20 : ℚ
  m21 : ℚ
  m22 : ℚ
deriving DecidableEq, Repr

namespace Mat3

def zero : Mat3 := ⟨0, 0, 0, 0, 0, 0, 0, 0, 0⟩

def add (a b : Mat3) : Mat3 :=
  ⟨a.m00 + b.m00, a.m01 + b.m01, a.m02 + b.m02,
   a.m10 + b.m10, a.m11 + b.m11, a.m12 + b.m12,
   a.m20 + b.m20, a.m21 + b.m21, a.m22 + b.m22⟩

def sub (a b : Mat3) : Mat3 :=
  ⟨a.m00 - b.m00, a.m01 - b.m01, a.m02 - b.m02,
   a.m10 - b.m10, a.m11 - b.m11, a.m12 - b.m12,
   a.m20 - b.m20, a.m21 - b.m21, a.m22 - b.m22⟩

def scale (q : ℚ) (a : Mat3) : Mat3 :=
  ⟨q * a.m00, q * a.m01, q * a.m02,
   q * a.m10, q * a.m11, q * a.m12,
   q * a.m20, q * a.m21, q * a.m22⟩

/-- Outer product `v * wᵗ`. -/
def outer (v w : Vec3) : Mat3 :=
  ⟨v.x * w.x, v.x * w.y, v.x * w.z,
   v.y * w.x, v.y * w.y, v.y * w.z,
   v.z * w.x, v.z * w.y, v.z * w.z⟩

end Mat3

/-- The part of an Eigen::SelfAdjointEigenSolver result that the source
reads: the two smallest eigenvalues (ascending order) and the
eigenvector of the smallest eigenvalue (`eigenvectors().col(0)`). -/
structure EigenResult where
  ev0 : ℚ
  ev1 : ℚ
  vec0 : Vec3
deriving DecidableEq, Repr

/-- A CGAL point paired with its stored per-cell normal
(ransac_plane_extractor::PointWithNormal). -/
abbrev PointWithNormal := Vec3 × Vec3

/-- A support point together with the orientation produced by the
external orientation utility (switched_model::TerrainPlane).  The
orientation is carried opaquely as the vector handed back by the
utility. -/
structure TerrainPlane where
  support : Vec3
  orientation : Vec3
deriving DecidableEq, Repr

/-- SegmentedPlanesMap: the pipeline's mutable output aggregate. -/
structure SegMap where
  resolution : ℚ
  mapOriginX : ℚ
  mapOriginY : ℚ
  highestLabel : ℤ
  labeledImage : ℤ → ℤ → ℤ
  labelPlaneParameters : List (ℤ × TerrainPlane)

/-- SlidingWindowPlaneExtractorParameters (the fields the source reads). -/
structure Params where
  kernel_size : ℕ
  plane_patch_error_threshold : ℚ
  plane_inclination_threshold_degrees : ℚ
  planarity_erosion : ℤ
  min_number_points_per_label : ℕ
  include_ransac_refinement : Bool
  global_plane_fit_distance_error_threshold : ℚ
  global_plane_fit_angle_error_threshold_degrees : ℚ

/-- The read-only elevation grid (grid_map::GridMap as consumed here):
size, resolution, the world position of index (0,0), per-cell heights
(`none` = non-finite) and the world-to-index lookup `getIndex`. -/
structure GridMap where
  rows : ℕ
  cols : ℕ
  resolution : ℚ
  originX : ℚ
  originY : ℚ
  height : ℤ → ℤ → Option ℚ
  getIndex : ℚ → ℚ → ℤ × ℤ

/-- External collaborators consumed by the extractor. -/
structure Externals where
  /-- Eigen::SelfAdjointEigenSolver::computeDirect on a symmetric 3×3. -/
  solver : Mat3 → EigenResult
  /-- std::sqrt. -/
  sqrtFn : ℚ → ℚ
  /-- std::acos composed with the radian→degree conversion:
  `acosDeg c = acos(c) * 180 / π`. -/
  acosDeg : ℚ → ℚ
  /-- switched_model::orientationWorldToTerrainFromSurfaceNormalInWorld. -/
  orient : Vec3 → Vec3
  /-- The CGAL RANSAC detector: from the point+normal list, the ordered
  detected planes (each the list of indices of its assigned points) and
  the list of unassigned point indices. -/
  ransac : List PointWithNormal → List (List ℕ) × List ℕ
  /-- cv::connectedComponents: labeled raster and component count. -/
  connComp : (ℤ → ℤ → Bool) → (ℤ → ℤ → ℤ) × ℤ

/-- std::abs over the rational model. -/
def ratAbs (q : ℚ) : ℚ := if q < 0 then -q else q

/-- The numeric floor 1e-8 against which the second eigenvalue is tested. -/
def eigenvalueFloor : ℚ := 1 / 100000000

/-- The 1e30 error sentinel. -/
def errorSentinel : ℚ := 10 ^ 30

/-- `angleBetweenNormalizedVectorsInDegrees` from the source: clamp the
dot product to [-1, 1], take the inverse cosine in degrees, return the
absolute value. -/
def angleBetweenNormalizedVectorsInDegrees (E : Externals) (v1 v2 : Vec3) : ℚ :=
  let cosRad := v1.dot v2
  let clamped := if cosRad < -1 then -1 else if 1 < cosRad then 1 else cosRad
  ratAbs (E.acosDeg clamped)

/-- `normalAndErrorFromCovariance` from the source: build the covariance
`sumSquared / n − mean·meanᵗ`, eigendecompose it; if the second-smallest
eigenvalue exceeds 1e-8 return the smallest eigenvector flipped upwards
with rms error `sqrt(max(ev0, 0))`, else the (0,0,1) / 1e30 sentinel. -/
def normalAndErrorFromCovariance (E : Externals) (numPoint : ℕ) (mean : Vec3)
    (sumSquared : Mat3) : Vec3 × ℚ :=
  let covarianceMatrix := (sumSquared.scale (1 / (numPoint : ℚ))).sub (Mat3.outer mean mean)
  let solver := E.solver covarianceMatrix
  if eigenvalueFloor < solver.ev1 then
    let unitaryNormalVector := if solver.vec0.z < 0 then solver.vec0.neg else solver.vec0
    let rmsError := if 0 < solver.ev0 then E.sqrtFn solver.ev0 else 0
    (unitaryNormalVector, rmsError)
  else
    (Vec3.unitZ, errorSentinel)

/-- Accumulator for the covariance statistics (count, sum, sum of outer
products). -/
structure Accum where
  nPoints : ℕ
  sum : Vec3
  sumSquared : Mat3

def Accum.init : Accum := ⟨0, Vec3.zero, Mat3.zero⟩

/-- Add one 3D point to the statistics. -/
def Accum.push (a : Accum) (p : Vec3) : Accum :=
  ⟨a.nPoints + 1, a.sum.add p, a.sumSquared.add (Mat3.outer p p)⟩

/-- The kernel positions in the source's scan order (outer loop over
columns, inner loop over rows): pairs `(kernel_row, kernel_col)`. -/
def kernelCells (kernelSize : ℕ) : List (ℕ × ℕ) :=
  (List.range kernelSize).flatMap fun c => (List.range kernelSize).map fun r => (r, c)

/-- The gathering loop of `computeNormalAndErrorForWindow`: skip
non-finite heights, otherwise push the point
`(-kernel_row·res, -kernel_col·res, height)`. -/
def gatherWindow (res : ℚ) (kernelSize : ℕ) (windowData : ℕ → ℕ → Option ℚ) : Accum :=
  (kernelCells kernelSize).foldl
    (fun a rc =>
      match windowData rc.1 rc.2 with
      | none => a
      | some h => a.push ⟨-(rc.1 : ℚ) * res, -(rc.2 : ℚ) * res, h⟩)
    Accum.init

/-- `computeNormalAndErrorForWindow` from the source. -/
def computeNormalAndErrorForWindow (E : Externals) (p : Params) (res : ℚ)
    (windowData : ℕ → ℕ → Option ℚ) : Vec3 × ℚ :=
  let a := gatherWindow res p.kernel_size windowData
  if a.nPoints < 3 then
    (Vec3.unitZ, errorSentinel)
  else
    normalAndErrorFromCovariance E a.nPoints (Vec3.smul (1 / (a.nPoints : ℚ)) a.sum) a.sumSquared

/-- `isLocallyPlanar` from the source. -/
def isLocallyPlanar (E : Externals) (p : Params) (localNormal : Vec3) (meanError : ℚ) : Bool :=
  decide (meanError < p.plane_patch_error_threshold) &&
    decide (angleBetweenNormalizedVectorsInDegrees E localNormal Vec3.unitZ <
      p.plane_inclination_threshold_degrees)

/-- Modelled from the spec: the dense per-cell normal buffer has "one
entry per grid cell"; the header defining `getLinearIndex` is not among
the sources, so the (column-major, matching the raster storage)
linearization is fixed here. -/
def getLinearIndex (rows : ℕ) (r c : ℤ) : ℤ := r + c * rows

/-- Point update of the binary mask. -/
def updMask (mask : ℤ → ℤ → Bool) (rc : ℤ × ℤ) (b : Bool) : ℤ → ℤ → Bool :=
  fun r c => if (r, c) = rc then b else mask r c

/-- Point update of the labeled raster. -/
def updImg (img : ℤ → ℤ → ℤ) (rc : ℤ × ℤ) (v : ℤ) : ℤ → ℤ → ℤ :=
  fun r c => if (r, c) = rc then v else img r c

/-- Point update of the linear normal buffer. -/
def updLin (f : ℤ → Vec3) (i : ℤ) (v : Vec3) : ℤ → Vec3 :=
  fun j => if j = i then v else f j

/-- `kernelMiddle = (kernel_size - 1) / 2` from the source. -/
def kernelMiddle (p : Params) : ℕ := (p.kernel_size - 1) / 2

/-- All raster cells, row-major. -/
def allCells (rows cols : ℕ) : List (ℤ × ℤ) :=
  (List.range rows).flatMap fun (r : ℕ) => (List.range cols).map fun (c : ℕ) => ((r : ℤ), (c : ℤ))

/-- All raster cells in the source's collection order of
`computePlaneParametersForLabel` (outer loop over columns, inner over
rows). -/
def colMajorCells (rows cols : ℕ) : List (ℤ × ℤ) :=
  (List.range cols).flatMap fun (c : ℕ) => (List.range rows).map fun (r : ℕ) => ((r : ℤ), (c : ℤ))

/-- grid_map::SlidingWindowIterator with EdgeHandling::INSIDE visits a
cell iff the full kernel window fits inside the raster. -/
def windowInside (map : GridMap) (p : Params) (rc : ℤ × ℤ) : Bool :=
  decide ((kernelMiddle p : ℤ) ≤ rc.1) && decide (rc.1 + kernelMiddle p ≤ (map.rows : ℤ) - 1) &&
    decide ((kernelMiddle p : ℤ) ≤ rc.2) && decide (rc.2 + kernelMiddle p ≤ (map.cols : ℤ) - 1)

/-- The cells visited by the INSIDE-mode sliding-window iterator. -/
def visitedCells (map : GridMap) (p : Params) : List (ℤ × ℤ) :=
  (allCells map.rows map.cols).filter (windowInside map p)

/-- The K×K window block returned by the iterator's `getData()` for the
cell `rc` (fully inside the raster in INSIDE mode). -/
def windowBlock (map : GridMap) (p : Params) (rc : ℤ × ℤ) : ℕ → ℕ → Option ℚ :=
  fun kr kc => map.height (rc.1 - kernelMiddle p + kr) (rc.2 - kernelMiddle p + kc)

/-- The loop body of `runSlidingWindowDetector`: a non-finite middle
value clears the mask bit; otherwise the window normal and error are
computed, the normal is stored in the per-cell buffer and the mask bit
is set to the local planarity classification. -/
def scanStep (E : Externals) (p : Params) (map : GridMap)
    (s : (ℤ → Vec3) × (ℤ → ℤ → Bool)) (rc : ℤ × ℤ) : (ℤ → Vec3) × (ℤ → ℤ → Bool) :=
  let windowData := windowBlock map p rc
  match windowData (kernelMiddle p) (kernelMiddle p) with
  | none => (s.1, updMask s.2 rc false)
  | some _ =>
      let ne := computeNormalAndErrorForWindow E p map.resolution windowData
      (updLin s.1 (getLinearIndex map.rows rc.1 rc.2) ne.1,
        updMask s.2 rc (isLocallyPlanar E p ne.1 ne.2))

/-- The scan phase of `runSlidingWindowDetector`. -/
def slidingWindowScan (E : Externals) (p : Params) (map : GridMap)
    (normals0 : ℤ → Vec3) (mask0 : ℤ → ℤ → Bool) : (ℤ → Vec3) × (ℤ → ℤ → Bool) :=
  (visitedCells map p).foldl (scanStep E p map) (normals0, mask0)

/-- Offsets of the cross structuring element of radius `e`
(cv::MORPH_CROSS with size 2e+1). -/
def crossOffsets (e : ℕ) : List (ℤ × ℤ) :=
  ((List.range (2 * e + 1)).map fun (k : ℕ) => ((k : ℤ) - e, (0 : ℤ))) ++
    ((List.range (2 * e + 1)).map fun (k : ℕ) => ((0 : ℤ), (k : ℤ) - e))

/-- cv::erode with the cross element.  The default BORDER_CONSTANT
border value for erosion is the type maximum, so out-of-raster
neighbours do not constrain the minimum. -/
def erodeCross (rows cols : ℕ) (e : ℕ) (mask : ℤ → ℤ → Bool) : ℤ → ℤ → Bool :=
  fun r c =>
    (crossOffsets e).all fun d =>
      if 0 ≤ r + d.1 ∧ r + d.1 < rows ∧ 0 ≤ c + d.2 ∧ c + d.2 < cols then
        mask (r + d.1) (c + d.2)
      else true

/-- `runSlidingWindowDetector`: the scan over the visited cells followed
by the optional erosion of the binary mask.  The normal buffer starts
zero-filled (the fresh-run initialization of `runExtraction`) and the
mask starts all-false (zero-initialized cv::Mat). -/
def detectorState (E : Externals) (p : Params) (map : GridMap) : (ℤ → Vec3) × (ℤ → ℤ → Bool) :=
  let s := slidingWindowScan E p map (fun _ => Vec3.zero) (fun _ _ => false)
  if 0 < p.planarity_erosion then
    (s.1, erodeCross map.rows map.cols p.planarity_erosion.toNat s.2)
  else s

/-- State after `runSlidingWindowDetector` and `runSegmentation`: the
segmented planes map (labels from connected components, `highestLabel`
= component count − 1, empty plane list) and the normal buffer. -/
def segmentedState (E : Externals) (p : Params) (map : GridMap) : SegMap × (ℤ → Vec3) :=
  let d := detectorState E p map
  let cc := E.connComp d.2
  ({ resolution := map.resolution, mapOriginX := map.originX, mapOriginY := map.originY,
     highestLabel := cc.2 - 1, labeledImage := cc.1, labelPlaneParameters := [] }, d.1)

/-- The collection loop of `computePlaneParametersForLabel`: every cell
currently carrying `label` whose height is finite contributes its world
point to the covariance statistics and, paired with its stored per-cell
normal, to the transient point list. -/
def collectStep (map : GridMap) (normals : ℤ → Vec3) (st : SegMap) (label : ℤ)
    (acc : Accum × List PointWithNormal) (rc : ℤ × ℤ) : Accum × List PointWithNormal :=
  if st.labeledImage rc.1 rc.2 = label then
    match map.height rc.1 rc.2 with
    | some h =>
        let point3d : Vec3 := ⟨st.mapOriginX - rc.1 * st.resolution,
                               st.mapOriginY - rc.2 * st.resolution, h⟩
        (acc.1.push point3d,
          acc.2 ++ [(point3d, normals (getLinearIndex map.rows rc.1 rc.2))])
    | none => acc
  else acc

def collectLabelPoints (map : GridMap) (normals : ℤ → Vec3) (st : SegMap) (label : ℤ) :
    Accum × List PointWithNormal :=
  (colMajorCells map.rows map.cols).foldl (collectStep map normals st label) (Accum.init, [])

/-- `isGloballyPlanar` from the source: every collected point must be
within the distance threshold of the fitted plane and have its stored
normal within the angle threshold of the fitted normal (the source
short-circuits on the first `>` violation; the value is the same). -/
def isGloballyPlanar (E : Externals) (p : Params) (normalVectorPlane supportVectorPlane : Vec3)
    (pointsWithNormal : List PointWithNormal) : Bool :=
  let normalDotSupportvector := normalVectorPlane.dot supportVectorPlane
  pointsWithNormal.all fun pw =>
    decide (ratAbs (normalVectorPlane.dot pw.1 - normalDotSupportvector) ≤
        p.global_plane_fit_distance_error_threshold) &&
      decide (angleBetweenNormalizedVectorsInDegrees E pw.2 normalVectorPlane ≤
        p.global_plane_fit_angle_error_threshold_degrees)

/-- The per-plane averaging of `refineLabelWithRansac`: accumulate the
claimed points, support = centroid, normal from the covariance fit. -/
def planeFitOfIndices (E : Externals) (pts : List PointWithNormal) (idxs : List ℕ) :
    Vec3 × Vec3 :=
  let a := idxs.foldl (fun a i => a.push (pts.getD i (Vec3.zero, Vec3.zero)).1) Accum.init
  let supportVector := Vec3.smul (1 / (idxs.length : ℚ)) a.sum
  (supportVector, (normalAndErrorFromCovariance E idxs.length supportVector a.sumSquared).1)

/-- Write value `v` into the labeled raster at the cell obtained by
looking each claimed point up by world coordinate (`map.getIndex`). -/
def writeCells (map : GridMap) (pts : List PointWithNormal) (idxs : List ℕ) (v : ℤ)
    (img : ℤ → ℤ → ℤ) : ℤ → ℤ → ℤ :=
  idxs.foldl
    (fun im i =>
      let pt := (pts.getD i (Vec3.zero, Vec3.zero)).1
      updImg im (map.getIndex pt.x pt.y) v)
    img

/-- The plane loop of `refineLabelWithRansac`.  The source interleaves
the point accumulation and the relabeling in one loop over the claimed
indices; the two are independent (the accumulation reads only the point
list), so they are factored into `planeFitOfIndices` and `writeCells`. -/
def refinePlanesGo (E : Externals) (p : Params) (map : GridMap) (label : ℤ)
    (pts : List PointWithNormal) : List (List ℕ) → Bool → SegMap → SegMap
  | [], _, st => st
  | idxs :: rest, reuseLabel, st =>
      let newLabel := if reuseLabel then label else st.highestLabel + 1
      let st1 := if reuseLabel then st else { st with highestLabel := st.highestLabel + 1 }
      let img2 := if newLabel ≠ label then writeCells map pts idxs newLabel st1.labeledImage
                  else st1.labeledImage
      let fit := planeFitOfIndices E pts idxs
      let entries2 :=
        if angleBetweenNormalizedVectorsInDegrees E fit.2 Vec3.unitZ <
            p.plane_inclination_threshold_degrees then
          st1.labelPlaneParameters ++ [(newLabel, ⟨fit.1, E.orient fit.2⟩)]
        else st1.labelPlaneParameters
      refinePlanesGo E p map label pts rest false
        { st1 with labeledImage := img2, labelPlaneParameters := entries2 }

/-- `refineLabelWithRansac`: run the detector, process the detected
planes with the reuse-first-label bookkeeping, then reset every
unassigned point's cell to label 0. -/
def refineLabelWithRansac (E : Externals) (p : Params) (map : GridMap) (label : ℤ)
    (pointsWithNormal : List PointWithNormal) (st : SegMap) : SegMap :=
  let det := E.ransac pointsWithNormal
  let st1 := refinePlanesGo E p map label pointsWithNormal det.1 true st
  { st1 with labeledImage := writeCells map pointsWithNormal det.2 0 st1.labeledImage }

/-- `computePlaneParametersForLabel` from the source. -/
def computePlaneParametersForLabel (E : Externals) (p : Params) (map : GridMap)
    (normals : ℤ → Vec3) (st : SegMap) (label : ℤ) : SegMap :=
  let col := collectLabelPoints map normals st label
  let a := col.1
  let pointsWithNormal := col.2
  if a.nPoints < p.min_number_points_per_label ∨ a.nPoints < 3 then st
  else
    let supportVector := Vec3.smul (1 / (a.nPoints : ℚ)) a.sum
    let normalVector := (normalAndErrorFromCovariance E a.nPoints supportVector a.sumSquared).1
    if p.include_ransac_refinement &&
        !(isGloballyPlanar E p normalVector supportVector pointsWithNormal) then
      refineLabelWithRansac E p map label pointsWithNormal st
    else if angleBetweenNormalizedVectorsInDegrees E normalVector Vec3.unitZ <
        p.plane_inclination_threshold_degrees then
      { st with labelPlaneParameters :=
          st.labelPlaneParameters ++ [(label, ⟨supportVector, E.orient normalVector⟩)] }
    else st

/-- The labels 1 .. n visited by the per-region loop (empty when n ≤ 0). -/
def regionLabelList (n : ℤ) : List ℤ :=
  (List.range n.toNat).map fun (k : ℕ) => (k : ℤ) + 1

/-- The per-region loop of `extractPlaneParametersFromLabeledImage`. -/
def extractGo (E : Externals) (p : Params) (map : GridMap) (normals : ℤ → Vec3) :
    List ℤ → SegMap → SegMap
  | [], st => st
  | l :: ls, st => extractGo E p map normals ls (computePlaneParametersForLabel E p map normals st l)

/-- `extractPlaneParametersFromLabeledImage`: iterate over labels
1 .. highestLabel, the bound captured before the loop. -/
def extractPlaneParametersFromLabeledImage (E : Externals) (p : Params) (map : GridMap)
    (normals : ℤ → Vec3) (st : SegMap) : SegMap :=
  extractGo E p map normals (regionLabelList st.highestLabel) st

/-- `runExtraction` on a fresh extractor: initialize, run the detector,
the segmentation and the per-region extraction. -/
def runExtraction (E : Externals) (p : Params) (map : GridMap) : SegMap :=
  let s := segmentedState E p map
  extractPlaneParametersFromLabeledImage E p map s.2 s.1

/-- The `surfaceNormals_` std::vector, as a size plus backing store
(the store models the allocated capacity, so out-of-size writes made by
the source are still recorded). -/
structure NormalBuffer where
  size : ℕ
  data : ℤ → Vec3

/-- The initialization of `surfaceNormals_` in `runExtraction`: when
`size() < linearMapSize` the source calls `reserve(linearMapSize)` —
which changes the capacity but not the size — and then `fill_n` writes
`linearMapSize` zero vectors from `begin()`. -/
def initSurfaceNormals (buf : NormalBuffer) (linearMapSize : ℕ) : NormalBuffer :=
  if buf.size < linearMapSize then
    { size := buf.size,
      data := fun i => if 0 ≤ i ∧ i < linearMapSize then Vec3.zero else buf.data i }
  else buf

/-- The covariance matrix a window's statistics feed into the
eigensolver. -/
def windowCovariance (res : ℚ) (kernelSize : ℕ) (windowData : ℕ → ℕ → Option ℚ) : Mat3 :=
  let a := gatherWindow res kernelSize windowData
  let mean := Vec3.smul (1 / (a.nPoints : ℚ)) a.sum
  (a.sumSquared.scale (1 / (a.nPoints : ℚ))).sub (Mat3.outer mean mean)

end SWPE

namespace SWPE

/-! ## Concrete collaborator instantiations used by witnesses and
counterexamples.  They agree with the real collaborators at every input
where the statements below consult them. -/

/-- Inverse cosine in degrees, instantiated as the secant line through
the values at the endpoints; it agrees with `acos(c)·180/π` at
c ∈ {−1, 0, 1}, the only arguments at which the concrete statements
below evaluate it. -/
def acosDegLin : ℚ → ℚ := fun c => 90 * (1 - c)

/-- The eigendecomposition ⟨ev0 = 0, ev1 = 1/4, vec0 = (0,0,1)⟩.  It is
the true ascending eigendecomposition of
diag(1/4, 1/4, 0), the only covariance matrix at which the concrete
statements below consult the solver. -/
def diagSolver : Mat3 → EigenResult := fun _ => ⟨0, 1 / 4, Vec3.unitZ⟩

/-- A bundle of concrete collaborators for witnesses. -/
def Ewit : Externals :=
  { solver := diagSolver
    sqrtFn := fun q => q
    acosDeg := acosDegLin
    orient := fun v => v
    ransac := fun _ => ([], [])
    connComp := fun _ => (fun _ _ => 0, 1) }

/-- The kernel-size-2 window holding exactly two finite samples. -/
def twoSampleWindow : ℕ → ℕ → Option ℚ := fun r _ => if r = 0 then some 0 else none

/-- Parameters with kernel size 2 for the two-sample window. -/
def paramsK2 : Params :=
  { kernel_size := 2, plane_patch_error_threshold := 1,
    plane_inclination_threshold_degrees := 45, planarity_erosion := 0,
    min_number_points_per_label := 0, include_ransac_refinement := false,
    global_plane_fit_distance_error_threshold := 1,
    global_plane_fit_angle_error_threshold_degrees := 45 }

/-- A 2×2 all-flat map (heights all 0). -/
def map2 : GridMap :=
  { rows := 2, cols := 2, resolution := 1, originX := 0, originY := 0,
    height := fun _ _ => some 0, getIndex := fun _ _ => (0, 0) }

/-- Stored per-cell normals: cell (0,0) carries the sideways normal
(1,0,0) (90° off the plane fit), the rest carry (0,0,1). -/
def normalsC2 : ℤ → Vec3 := fun i => if i = 0 then ⟨1, 0, 0⟩ else Vec3.unitZ

/-- Post-segmentation state: one region, label 1 everywhere. -/
def stC2 : SegMap :=
  { resolution := 1, mapOriginX := 0, mapOriginY := 0, highestLabel := 1,
    labeledImage := fun _ _ => 1, labelPlaneParameters := [] }

def colC2 : Accum × List PointWithNormal := collectLabelPoints map2 normalsC2 stC2 1

def supC2 : Vec3 := Vec3.smul (1 / (colC2.1.nPoints : ℚ)) colC2.1.sum

def norC2 : Vec3 :=
  (normalAndErrorFromCovariance Ewit colC2.1.nPoints supC2 colC2.1.sumSquared).1

/-- The raster cell a claimed point index maps back to: the
world-coordinate lookup (`map.getIndex`) of the point stored at that
index, exactly as the relabeling and reset loops perform it. -/
def cellOfIndex (map : GridMap) (pts : List PointWithNormal) (i : ℕ) : ℤ × ℤ :=
  let pt := (pts.getD i (Vec3.zero, Vec3.zero)).1
  map.getIndex pt.x pt.y

/-- The label the refinement bookkeeping assigns to the k-th detected
plane: the original label for k = 0, `h0 + k` for each subsequent plane
(`h0` = highestLabel on entry to the refinement). -/
def assignedLabel (h0 label : ℤ) (k : ℕ) : ℤ := if k = 0 then label else h0 + k

/-- The (label, plane) entries appended by the refinement plane loop,
characterized recursively alongside the loop: from running label
counter `h`, the current plane is emitted (under the reused original
label or under `h + 1`) iff its refitted inclination passes. -/
def refinedEntries (E : Externals) (p : Params) (pts : List PointWithNormal) (label : ℤ) :
    List (List ℕ) → Bool → ℤ → List (ℤ × TerrainPlane)
  | [], _, _ => []
  | idxs :: rest, reuseLabel, h =>
      let newLabel := if reuseLabel then label else h + 1
      let h2 := if reuseLabel then h else h + 1
      let fit := planeFitOfIndices E pts idxs
      (if angleBetweenNormalizedVectorsInDegrees E fit.2 Vec3.unitZ <
          p.plane_inclination_threshold_degrees then
        [(newLabel, ⟨fit.1, E.orient fit.2⟩)]
      else []) ++ refinedEntries E p pts label rest false h2

/-- Collaborators whose RANSAC detector reports two single-point planes
(indices 0 and 1) and one unassigned point (index 2). -/
def EwitR : Externals := { Ewit with ransac := fun _ => ([[0], [1]], [2]) }

/-- A map whose world-to-index lookup inverts the integer cell centers
used below: position (x, y) lies in cell (−x, −y). -/
def mapW : GridMap :=
  { rows := 2, cols := 2, resolution := 1, originX := 0, originY := 0,
    height := fun _ _ => some 0, getIndex := fun x y => ((-x).num, (-y).num) }

/-- Three points at the centers of cells (0,0), (1,0) and (0,1). -/
def ptsW : List PointWithNormal :=
  [(⟨0, 0, 0⟩, Vec3.unitZ), (⟨-1, 0, 5⟩, Vec3.unitZ), (⟨0, -1, 7⟩, Vec3.unitZ)]

/-- A mid-run state: label 3 everywhere, highestLabel 5. -/
def stW : SegMap :=
  { resolution := 1, mapOriginX := 0, mapOriginY := 0, highestLabel := 5,
    labeledImage := fun _ _ => 3, labelPlaneParameters := [] }

/-- The state of the run after the per-region loop has processed its
first `k` labels (k = 0 is the state segmentation produced). -/
def stateAfterRegions (E : Externals) (p : Params) (map : GridMap) (k : ℕ) : SegMap :=
  extractGo E p map (segmentedState E p map).2
    ((regionLabelList (segmentedState E p map).1.highestLabel).take k)
    (segmentedState E p map).1

/-- The initial highestLabel captured before the per-region loop. -/
def initialHighestLabel (E : Externals) (p : Params) (map : GridMap) : ℤ :=
  (segmentedState E p map).1.highestLabel

/-- Parameters with kernel size 1 (every cell's window is itself). -/
def paramsK1 : Params := { paramsK2 with kernel_size := 1 }

/-- Collaborators whose connected components labels the whole raster as
one region (labels all 1, component count 2). -/
def EwitCC : Externals := { Ewit with connComp := fun _ => (fun _ _ => 1, 2) }

/-- Collaborators whose connected components honours the background
contract: masked-off cells get label 0, mask cells get label 1. -/
def EwitHC : Externals :=
  { Ewit with connComp := fun m => (fun r c => if m r c = true then 1 else 0, 2) }

/-- A 2×2 map with one non-finite cell at (0,0) and an honest
world-to-index lookup (position (x,y) lies in cell (−x, −y)). -/
def mapC7 : GridMap :=
  { rows := 2, cols := 2, resolution := 1, originX := 0, originY := 0,
    height := fun r c => if r = 0 ∧ c = 0 then none else some 0,
    getIndex := fun x y => ((-x).num, (-y).num) }

/-- Parameters with kernel size 3. -/
def paramsK3 : Params := { paramsK2 with kernel_size := 3 }

/-- A 3×3 all-flat map (heights all 0). -/
def map3 : GridMap :=
  { rows := 3, cols := 3, resolution := 1, originX := 0, originY := 0,
    height := fun _ _ => some 0, getIndex := fun _ _ => (0, 0) }

/-- Modelled from the spec (§4.1, the behaviour claim C3 asserts): for
a cell, the best-fit normal and error over the K×K neighborhood
centered on it, where neighborhood cells lying outside the raster
boundary are "simply skipped" (treated as missing), for every cell of
the raster including boundary cells. -/
def spec_windowNormalAt (E : Externals) (p : Params) (map : GridMap) (r c : ℤ) : Vec3 × ℚ :=
  computeNormalAndErrorForWindow E p map.resolution fun kr kc =>
    if 0 ≤ r - kernelMiddle p + kr ∧ r - kernelMiddle p + kr < map.rows ∧
        0 ≤ c - kernelMiddle p + kc ∧ c - kernelMiddle p + kc < map.cols then
      map.height (r - kernelMiddle p + kr) (c - kernelMiddle p + kc)
    else none

end SWPE

namespace SWPE

/-- C6: whenever a window gathers fewer than 3 finite-height
neighborhood points, or the second-smallest eigenvalue of its
neighborhood covariance is at or below the 1e-8 floor, the window
normal computation returns exactly the normal (0,0,1) and the error
sentinel 1e30. -/
theorem c6_degenerate_window_sentinel (E : Externals) (p : Params) (res : ℚ)
    (w : ℕ → ℕ → Option ℚ)
    (h : (gatherWindow res p.kernel_size w).nPoints < 3 ∨
      (E.solver (windowCovariance res p.kernel_size w)).ev1 ≤ eigenvalueFloor) :
    computeNormalAndErrorForWindow E p res w = (Vec3.unitZ, errorSentinel) := by
  unfold computeNormalAndErrorForWindow
  rcases h with h | h
  · simp [h]
  · by_cases h3 : (gatherWindow res p.kernel_size w).nPoints < 3
    · simp [h3]
    · simp only [if_neg h3]
      unfold normalAndErrorFromCovariance
      rw [if_neg]
      exact not_lt.mpr h

/-- Witness for C6: a window with exactly 2 valid samples yields
error = 1e30 and normal (0,0,1) exactly. -/
theorem c6_degenerate_window_sentinel_wit :
    (gatherWindow 1 paramsK2.kernel_size twoSampleWindow).nPoints = 2 ∧
      computeNormalAndErrorForWindow Ewit paramsK2 1 twoSampleWindow = (Vec3.unitZ, errorSentinel) :=
  ⟨by decide, c6_degenerate_window_sentinel Ewit paramsK2 1 twoSampleWindow (Or.inl (by decide))⟩

/-! ### Claim 2: regions failing the global planarity test with
refinement disabled.

The source guards the refinement call with
`include_ransac_refinement && !isGloballyPlanar(...)`; when refinement
is disabled the conjunction is false regardless of the test, so control
falls through to the inclination check and the region can still be
emitted.  The region is NOT dropped. -/

/-- Counterexample to C2 as stated: refinement is disabled, the region
fails the global planarity test (the stored normal of cell (0,0)
deviates 90° > 45° from the fitted normal), yet a (label, plane) entry
IS emitted for the region — it is not dropped. -/
theorem c2_counterexample :
    paramsK2.include_ransac_refinement = false ∧
      isGloballyPlanar Ewit paramsK2 norC2 supC2 colC2.2 = false ∧
      (computePlaneParametersForLabel Ewit paramsK2 map2 normalsC2 stC2 1).labelPlaneParameters =
        [(1, ⟨⟨-1/2, -1/2, 0⟩, Vec3.unitZ⟩)] := by
  refine ⟨rfl, by decide, by decide⟩

/-- C2 amended: when refinement is disabled the global planarity test
is skipped entirely (short-circuit), and the region's outcome is decided
by the point-count and inclination checks alone — a region failing the
global test is still emitted when its inclination passes, not dropped. -/
theorem c2_refinement_disabled_skips_global_test (E : Externals) (p : Params) (map : GridMap)
    (normals : ℤ → Vec3) (st : SegMap) (label : ℤ)
    (hp : p.include_ransac_refinement = false) :
    computePlaneParametersForLabel E p map normals st label =
      (let a := (collectLabelPoints map normals st label).1
       if a.nPoints < p.min_number_points_per_label ∨ a.nPoints < 3 then st
       else
         let supportVector := Vec3.smul (1 / (a.nPoints : ℚ)) a.sum
         let normalVector :=
           (normalAndErrorFromCovariance E a.nPoints supportVector a.sumSquared).1
         if angleBetweenNormalizedVectorsInDegrees E normalVector Vec3.unitZ <
             p.plane_inclination_threshold_degrees then
           { st with labelPlaneParameters :=
               st.labelPlaneParameters ++ [(label, ⟨supportVector, E.orient normalVector⟩)] }
         else st) := by
  unfold computePlaneParametersForLabel
  rw [hp]
  simp

/-- Witness for the amended C2 at the concrete region above. -/
theorem c2_refinement_disabled_skips_global_test_wit :
    computePlaneParametersForLabel Ewit paramsK2 map2 normalsC2 stC2 1 =
      (let a := (collectLabelPoints map2 normalsC2 stC2 1).1
       if a.nPoints < paramsK2.min_number_points_per_label ∨ a.nPoints < 3 then stC2
       else
         let supportVector := Vec3.smul (1 / (a.nPoints : ℚ)) a.sum
         let normalVector :=
           (normalAndErrorFromCovariance Ewit a.nPoints supportVector a.sumSquared).1
         if angleBetweenNormalizedVectorsInDegrees Ewit normalVector Vec3.unitZ <
             paramsK2.plane_inclination_threshold_degrees then
           { stC2 with labelPlaneParameters :=
               stC2.labelPlaneParameters ++ [(1, ⟨supportVector, Ewit.orient normalVector⟩)] }
         else stC2) :=
  c2_refinement_disabled_skips_global_test Ewit paramsK2 map2 normalsC2 stC2 1 rfl

/-! ### Lemmas about the refinement loop -/

theorem writeCells_cons (map : GridMap) (pts : List PointWithNormal) (i : ℕ) (is : List ℕ)
    (v : ℤ) (img : ℤ → ℤ → ℤ) :
    writeCells map pts (i :: is) v img =
      writeCells map pts is v (updImg img (cellOfIndex map pts i) v) := rfl

theorem writeCells_apply (map : GridMap) (pts : List PointWithNormal) (v : ℤ) :
    ∀ (idxs : List ℕ) (img : ℤ → ℤ → ℤ) (r c : ℤ),
      writeCells map pts idxs v img r c =
        if ∃ i ∈ idxs, cellOfIndex map pts i = (r, c) then v else img r c := by
  intro idxs
  induction idxs with
  | nil => intro img r c; simp [writeCells]
  | cons i is ih =>
      intro img r c
      rw [writeCells_cons, ih]
      by_cases hex : ∃ j ∈ is, cellOfIndex map pts j = (r, c)
      · rw [if_pos hex]
        obtain ⟨j, hj, hcell⟩ := hex
        rw [if_pos ⟨j, List.mem_cons_of_mem i hj, hcell⟩]
      · rw [if_neg hex]
        by_cases hc : cellOfIndex map pts i = (r, c)
        · simp only [updImg]
          rw [if_pos hc.symm, if_pos ⟨i, List.mem_cons_self i is, hc⟩]
        · simp only [updImg]
          rw [if_neg fun h => hc h.symm, if_neg]
          intro h
          obtain ⟨j, hj, hcell⟩ := h
          rcases List.mem_cons.mp hj with rfl | hj2
          · exact hc hcell
          · exact hex ⟨j, hj2, hcell⟩

theorem refinePlanesGo_highest (E : Externals) (p : Params) (map : GridMap) (label : ℤ)
    (pts : List PointWithNormal) :
    ∀ (planes : List (List ℕ)) (st : SegMap),
      (refinePlanesGo E p map label pts planes false st).highestLabel =
        st.highestLabel + planes.length := by
  intro planes
  induction planes with
  | nil => intro st; simp [refinePlanesGo]
  | cons idxs rest ih =>
      intro st
      simp only [refinePlanesGo]
      rw [ih]
      simp
      ring

theorem refinePlanesGo_entries (E : Externals) (p : Params) (map : GridMap) (label : ℤ)
    (pts : List PointWithNormal) :
    ∀ (planes : List (List ℕ)) (reuse : Bool) (st : SegMap),
      (refinePlanesGo E p map label pts planes reuse st).labelPlaneParameters =
        st.labelPlaneParameters ++ refinedEntries E p pts label planes reuse st.highestLabel := by
  intro planes
  induction planes with
  | nil => intro reuse st; simp [refinePlanesGo, refinedEntries]
  | cons idxs rest ih =>
      intro reuse st
      simp only [refinePlanesGo, refinedEntries]
      rw [ih]
      cases reuse <;>
        by_cases hang : angleBetweenNormalizedVectorsInDegrees E
            (planeFitOfIndices E pts idxs).2 Vec3.unitZ <
            p.plane_inclination_threshold_degrees <;>
          simp [hang]

theorem refinePlanesGo_img_untouched (E : Externals) (p : Params) (map : GridMap) (label : ℤ)
    (pts : List PointWithNormal) :
    ∀ (planes : List (List ℕ)) (reuse : Bool) (st : SegMap) (rc : ℤ × ℤ),
      (∀ k2, k2 < planes.length → ∀ j ∈ planes.getD k2 [], cellOfIndex map pts j ≠ rc) →
      (refinePlanesGo E p map label pts planes reuse st).labeledImage rc.1 rc.2 =
        st.labeledImage rc.1 rc.2 := by
  intro planes
  induction planes with
  | nil => intro reuse st rc _; simp [refinePlanesGo]
  | cons idxs rest ih =>
      intro reuse st rc h
      have hhead : ∀ j ∈ idxs, cellOfIndex map pts j ≠ rc := by
        have h0 := h 0 (by simp)
        simpa using h0
      have hrest : ∀ k2, k2 < rest.length → ∀ j ∈ rest.getD k2 [],
          cellOfIndex map pts j ≠ rc := by
        intro k2 hk2 j hj
        have h1 := h (k2 + 1) (by simpa using Nat.succ_lt_succ hk2)
        simp only [List.getD_cons_succ] at h1
        exact h1 j hj
      have hst1 : (if reuse = true then st
          else { st with highestLabel := st.highestLabel + 1 }).labeledImage =
          st.labeledImage := by
        cases reuse <;> rfl
      simp only [refinePlanesGo]
      rw [ih _ _ rc hrest]
      dsimp only
      by_cases hnl : (if reuse = true then label else st.highestLabel + 1) ≠ label
      · rw [if_pos hnl, writeCells_apply, if_neg, hst1]
        intro hx
        obtain ⟨j, hj, hcell⟩ := hx
        exact hhead j hj hcell
      · rw [if_neg hnl, hst1]

theorem refinePlanesGo_img_at (E : Externals) (p : Params) (map : GridMap) (label : ℤ)
    (pts : List PointWithNormal) :
    ∀ (planes : List (List ℕ)) (st : SegMap) (k : ℕ) (i : ℕ),
      k < planes.length → i ∈ planes.getD k [] →
      label ≤ st.highestLabel →
      (∀ k2, k < k2 → k2 < planes.length → ∀ j ∈ planes.getD k2 [],
        cellOfIndex map pts j ≠ cellOfIndex map pts i) →
      (refinePlanesGo E p map label pts planes false st).labeledImage
          (cellOfIndex map pts i).1 (cellOfIndex map pts i).2 =
        st.highestLabel + 1 + k := by
  intro planes
  induction planes with
  | nil => intro st k i hk; exact absurd hk (by simp)
  | cons idxs rest ih =>
      intro st k i hk hi hlab hdisj
      have hdshift : ∀ k2, k < k2 + 1 → k2 < rest.length → ∀ j ∈ rest.getD k2 [],
          cellOfIndex map pts j ≠ cellOfIndex map pts i := by
        intro k2 hk2 hk2len j hj
        have h1 := hdisj (k2 + 1) hk2 (by simpa using Nat.succ_lt_succ hk2len)
        simp only [List.getD_cons_succ] at h1
        exact h1 j hj
      cases k with
      | zero =>
          simp only [List.getD_cons_zero] at hi
          simp only [refinePlanesGo]
          rw [refinePlanesGo_img_untouched E p map label pts rest false _
            (cellOfIndex map pts i)
            (fun k2 hk2 j hj => hdshift k2 (Nat.succ_pos k2) hk2 j hj)]
          dsimp only
          have hne : ¬(if (false : Bool) = true then label else st.highestLabel + 1) = label := by
            simp only [Bool.false_eq_true, if_false]
            omega
          rw [if_pos hne, writeCells_apply, if_pos ⟨i, hi, rfl⟩]
          simp
      | succ k2 =>
          simp only [List.getD_cons_succ] at hi
          simp only [refinePlanesGo]
          rw [ih _ k2 i (by simpa using Nat.lt_of_succ_lt_succ hk) hi
            (by simp; omega) (fun k3 hk3 hk3len j hj =>
              hdshift k3 (Nat.succ_lt_succ hk3) hk3len j hj)]
          simp only [Bool.false_eq_true, if_false]
          push_cast
          ring

theorem refinedEntries_labels_false (E : Externals) (p : Params) (pts : List PointWithNormal)
    (label : ℤ) :
    ∀ (planes : List (List ℕ)) (h : ℤ),
      ∀ e ∈ refinedEntries E p pts label planes false h,
        ∃ k, k < planes.length ∧ e.1 = h + 1 + k := by
  intro planes
  induction planes with
  | nil => intro h e he; simp [refinedEntries] at he
  | cons idxs rest ih =>
      intro h e he
      simp only [refinedEntries] at he
      rcases List.mem_append.mp he with h1 | h2
      · by_cases hc : angleBetweenNormalizedVectorsInDegrees E
            (planeFitOfIndices E pts idxs).2 Vec3.unitZ < p.plane_inclination_threshold_degrees
        · rw [if_pos hc] at h1
          simp only [List.mem_singleton] at h1
          refine ⟨0, by simp, ?_⟩
          rw [h1]
          simp
        · rw [if_neg hc] at h1
          simp at h1
      · obtain ⟨k, hk, hek⟩ := ih (h + 1) e (by simpa using h2)
        refine ⟨k + 1, by simpa using Nat.succ_lt_succ hk, ?_⟩
        rw [hek]
        push_cast
        ring

theorem refinedEntries_labels (E : Externals) (p : Params) (pts : List PointWithNormal)
    (label : ℤ) (planes : List (List ℕ)) (h : ℤ) :
    ∀ e ∈ refinedEntries E p pts label planes true h,
      ∃ k, k < planes.length ∧ e.1 = assignedLabel h label k := by
  cases planes with
  | nil => intro e he; simp [refinedEntries] at he
  | cons idxs rest =>
      intro e he
      simp only [refinedEntries] at he
      rcases List.mem_append.mp he with h1 | h2
      · by_cases hc : angleBetweenNormalizedVectorsInDegrees E
            (planeFitOfIndices E pts idxs).2 Vec3.unitZ < p.plane_inclination_threshold_degrees
        · rw [if_pos hc] at h1
          simp only [List.mem_singleton] at h1
          refine ⟨0, by simp, ?_⟩
          rw [h1]
          simp [assignedLabel]
        · rw [if_neg hc] at h1
          simp at h1
      · obtain ⟨k, hk, hek⟩ := refinedEntries_labels_false E p pts label rest h e (by simpa using h2)
        refine ⟨k + 1, by simpa using Nat.succ_lt_succ hk, ?_⟩
        rw [hek]
        simp only [assignedLabel, Nat.succ_ne_zero, if_false]
        push_cast
        ring

theorem refinePlanesGo_first_plane_img (E : Externals) (p : Params) (map : GridMap)
    (label : ℤ) (pts : List PointWithNormal) (planes : List (List ℕ)) (st : SegMap)
    (rc : ℤ × ℤ)
    (hrest : ∀ k2, 1 ≤ k2 → k2 < planes.length → ∀ j ∈ planes.getD k2 [],
      cellOfIndex map pts j ≠ rc) :
    (refinePlanesGo E p map label pts planes true st).labeledImage rc.1 rc.2 =
      st.labeledImage rc.1 rc.2 := by
  cases planes with
  | nil => simp [refinePlanesGo]
  | cons idxs rest =>
      simp only [refinePlanesGo]
      rw [refinePlanesGo_img_untouched E p map label pts rest false _ rc
        (fun k2 hk2 j hj => by
          have h1 := hrest (k2 + 1) (Nat.succ_pos k2) (by simpa using Nat.succ_lt_succ hk2)
          simp only [List.getD_cons_succ] at h1
          exact h1 j hj)]
      dsimp only
      rw [if_neg (by simp)]
      simp

/-- C1: during RANSAC refinement of a region with original label L
(L ≤ the current highestLabel), for every detection outcome whose
planes claim pairwise-distinct cells and whose unassigned points do not
share cells with any claimed point: (a) the cells of the first detected
plane are never rewritten in the labeled raster; (b) the cells of the
k-th subsequent plane are relabeled to the fresh label highestLabel + k
(sequentially incremented); (c) every unassigned point's cell is reset
to label 0; (d) the appended (label, plane) entries are exactly the
refinedEntries of the detection, and (e) every appended entry carries
the assigned label of its plane — the original L for the first plane,
highestLabel + k for each subsequent plane. -/
theorem c1_refinement_label_bookkeeping (E : Externals) (p : Params) (map : GridMap)
    (label : ℤ) (pts : List PointWithNormal) (st : SegMap)
    (hlab : label ≤ st.highestLabel)
    (hPP : ∀ k1 k2, k1 < k2 → k2 < (E.ransac pts).1.length →
      ∀ i ∈ (E.ransac pts).1.getD k1 [], ∀ j ∈ (E.ransac pts).1.getD k2 [],
        cellOfIndex map pts j ≠ cellOfIndex map pts i)
    (hPU : ∀ k, k < (E.ransac pts).1.length → ∀ i ∈ (E.ransac pts).1.getD k [],
      ∀ j ∈ (E.ransac pts).2, cellOfIndex map pts j ≠ cellOfIndex map pts i) :
    (∀ i ∈ (E.ransac pts).1.getD 0 [],
      (refineLabelWithRansac E p map label pts st).labeledImage
          (cellOfIndex map pts i).1 (cellOfIndex map pts i).2 =
        st.labeledImage (cellOfIndex map pts i).1 (cellOfIndex map pts i).2) ∧
    (∀ k, 1 ≤ k → k < (E.ransac pts).1.length → ∀ i ∈ (E.ransac pts).1.getD k [],
      (refineLabelWithRansac E p map label pts st).labeledImage
          (cellOfIndex map pts i).1 (cellOfIndex map pts i).2 = st.highestLabel + k) ∧
    (∀ j ∈ (E.ransac pts).2,
      (refineLabelWithRansac E p map label pts st).labeledImage
          (cellOfIndex map pts j).1 (cellOfIndex map pts j).2 = 0) ∧
    ((refineLabelWithRansac E p map label pts st).labelPlaneParameters =
      st.labelPlaneParameters ++
        refinedEntries E p pts label (E.ransac pts).1 true st.highestLabel) ∧
    (∀ e ∈ refinedEntries E p pts label (E.ransac pts).1 true st.highestLabel,
      ∃ k, k < (E.ransac pts).1.length ∧ e.1 = assignedLabel st.highestLabel label k) ∧
    (assignedLabel st.highestLabel label 0 = label ∧
      ∀ k, 1 ≤ k → assignedLabel st.highestLabel label k = st.highestLabel + k) := by
  refine ⟨?_, ?_, ?_, ?_, ?_, ?_, ?_⟩
  · -- (a) first plane cells untouched
    intro i hi
    rcases hpl : (E.ransac pts).1 with _ | ⟨idxs, rest⟩
    · rw [hpl] at hi; simp at hi
    · simp only [refineLabelWithRansac]
      rw [writeCells_apply, if_neg, hpl]
      · rw [refinePlanesGo_first_plane_img E p map label pts (idxs :: rest) st
          (cellOfIndex map pts i) (fun k2 hk2 hk2len j hj => by
            exact hPP 0 k2 hk2 (by rw [hpl]; exact hk2len) i hi
              j (by rw [hpl]; exact hj))]
      · intro hx
        obtain ⟨j, hj, hcell⟩ := hx
        exact hPU 0 (by rw [hpl]; simp) i hi j hj hcell
  · -- (b) subsequent plane cells get the fresh label
    intro k hk1 hklen i hi
    rcases hpl : (E.ransac pts).1 with _ | ⟨idxs, rest⟩
    · rw [hpl] at hklen; simp at hklen
    · simp only [refineLabelWithRansac]
      rw [writeCells_apply, if_neg, hpl]
      · obtain ⟨k2, rfl⟩ : ∃ k2, k = k2 + 1 := ⟨k - 1, by omega⟩
        simp only [refinePlanesGo]
        rw [hpl] at hi hklen
        simp only [List.getD_cons_succ] at hi
        rw [refinePlanesGo_img_at E p map label pts rest _ k2 i
          (by simpa using Nat.lt_of_succ_lt_succ hklen) hi (by simp; omega)
          (fun k3 hk3 hk3len j hj => by
            exact hPP (k2 + 1) (k3 + 1) (Nat.succ_lt_succ hk3)
              (by rw [hpl]; simpa using Nat.succ_lt_succ hk3len) i
              (by rw [hpl]; simp only [List.getD_cons_succ]; exact hi)
              j (by rw [hpl]; simp only [List.getD_cons_succ]; exact hj))]
        simp
        omega
      · intro hx
        obtain ⟨j, hj, hcell⟩ := hx
        exact hPU k (by rw [hpl] at hklen ⊢; exact hklen) i hi j hj hcell
  · -- (c) unassigned cells reset to 0
    intro j hj
    simp only [refineLabelWithRansac]
    rw [writeCells_apply, if_pos ⟨j, hj, rfl⟩]
  · -- (d) entries appended
    simp only [refineLabelWithRansac]
    exact refinePlanesGo_entries E p map label pts (E.ransac pts).1 true st
  · -- (e) entry labels are the assigned labels
    exact refinedEntries_labels E p pts label (E.ransac pts).1 st.highestLabel
  · simp [assignedLabel]
  · intro k hk
    simp [assignedLabel]
    omega

/-- Witness for C1: a detection with two single-point planes and one
unassigned point over a mid-run state with highestLabel 5 and original
label 3: the first plane's cell keeps its raster value 3, the second
plane's cell is relabeled to the fresh label 6 = highestLabel + 1, and
the unassigned point's cell is reset to 0. -/
theorem c1_refinement_label_bookkeeping_wit :
    (refineLabelWithRansac EwitR paramsK2 mapW 3 ptsW stW).labeledImage 0 0 = 3 ∧
      (refineLabelWithRansac EwitR paramsK2 mapW 3 ptsW stW).labeledImage 1 0 = 6 ∧
      (refineLabelWithRansac EwitR paramsK2 mapW 3 ptsW stW).labeledImage 0 1 = 0 := by
  have T := c1_refinement_label_bookkeeping EwitR paramsK2 mapW 3 ptsW stW (by decide)
    (by
      intro k1 k2 h1 h2
      have h2' : k2 < 2 := h2
      have h1' : k1 < 2 := by omega
      interval_cases k2 <;> interval_cases k1 <;> first | omega | decide)
    (by
      intro k hk
      have hk' : k < 2 := hk
      interval_cases k <;> decide)
  refine ⟨?_, ?_, ?_⟩
  · have hc : cellOfIndex mapW ptsW 0 = (0, 0) := by decide
    have h := T.1 0 (by decide)
    rw [hc] at h
    simpa [stW] using h
  · have hc : cellOfIndex mapW ptsW 1 = (1, 0) := by decide
    have h := T.2.1 1 (by decide) (by decide) 1 (by decide)
    rw [hc] at h
    simpa [stW] using h
  · have hc : cellOfIndex mapW ptsW 2 = (0, 1) := by decide
    have h := T.2.2.1 2 (by decide)
    rw [hc] at h
    simpa [stW] using h

/-! ### Lemmas for the per-region loop -/

theorem refinePlanesGo_highest_true (E : Externals) (p : Params) (map : GridMap) (label : ℤ)
    (pts : List PointWithNormal) (planes : List (List ℕ)) (st : SegMap) :
    (refinePlanesGo E p map label pts planes true st).highestLabel =
      st.highestLabel + ((planes.length - 1 : ℕ) : ℤ) := by
  cases planes with
  | nil => simp [refinePlanesGo]
  | cons idxs rest =>
      simp only [refinePlanesGo]
      rw [refinePlanesGo_highest]
      simp

theorem refineLabelWithRansac_highest (E : Externals) (p : Params) (map : GridMap)
    (label : ℤ) (pts : List PointWithNormal) (st : SegMap) :
    (refineLabelWithRansac E p map label pts st).highestLabel =
      st.highestLabel + (((E.ransac pts).1.length - 1 : ℕ) : ℤ) := by
  simp only [refineLabelWithRansac]
  exact refinePlanesGo_highest_true E p map label pts (E.ransac pts).1 st

theorem refinedEntries_sorted_false (E : Externals) (p : Params) (pts : List PointWithNormal)
    (label : ℤ) :
    ∀ (planes : List (List ℕ)) (h : ℤ),
      List.Pairwise (· < ·) ((refinedEntries E p pts label planes false h).map Prod.fst) := by
  intro planes
  induction planes with
  | nil => intro h; simp [refinedEntries]
  | cons idxs rest ih =>
      intro h
      simp only [refinedEntries]
      by_cases hc : angleBetweenNormalizedVectorsInDegrees E
          (planeFitOfIndices E pts idxs).2 Vec3.unitZ < p.plane_inclination_threshold_degrees
      · rw [if_pos hc]
        simp only [Bool.false_eq_true, if_false, List.singleton_append, List.map_cons,
          List.pairwise_cons]
        constructor
        · intro x hx
          simp only [List.mem_map] at hx
          obtain ⟨e, he, rfl⟩ := hx
          obtain ⟨k, _, hek⟩ := refinedEntries_labels_false E p pts label rest (h + 1) e he
          omega
        · exact ih (h + 1)
      · rw [if_neg hc]
        simpa using ih (h + 1)

theorem refinedEntries_nodup_true (E : Externals) (p : Params) (pts : List PointWithNormal)
    (label : ℤ) (planes : List (List ℕ)) (h : ℤ) (hlab : label ≤ h) :
    ((refinedEntries E p pts label planes true h).map Prod.fst).Nodup := by
  cases planes with
  | nil => simp [refinedEntries]
  | cons idxs rest =>
      have hsorted : List.Pairwise (· < ·)
          ((refinedEntries E p pts label (idxs :: rest) true h).map Prod.fst) := by
        simp only [refinedEntries]
        by_cases hc : angleBetweenNormalizedVectorsInDegrees E
            (planeFitOfIndices E pts idxs).2 Vec3.unitZ < p.plane_inclination_threshold_degrees
        · rw [if_pos hc]
          simp only [eq_self_iff_true, if_true, List.singleton_append, List.map_cons,
            List.pairwise_cons]
          constructor
          · intro x hx
            simp only [List.mem_map] at hx
            obtain ⟨e, he, rfl⟩ := hx
            obtain ⟨k, _, hek⟩ := refinedEntries_labels_false E p pts label rest h e he
            omega
          · exact refinedEntries_sorted_false E p pts label rest h
        · rw [if_neg hc]
          simpa using refinedEntries_sorted_false E p pts label rest h
      exact hsorted.imp ne_of_lt

theorem computePlaneParametersForLabel_highest (E : Externals) (p : Params) (map : GridMap)
    (normals : ℤ → Vec3) (st : SegMap) (label : ℤ) :
    st.highestLabel ≤ (computePlaneParametersForLabel E p map normals st label).highestLabel := by
  simp only [computePlaneParametersForLabel]
  by_cases hA : (collectLabelPoints map normals st label).1.nPoints <
      p.min_number_points_per_label ∨ (collectLabelPoints map normals st label).1.nPoints < 3
  · rw [if_pos hA]
  · rw [if_neg hA]
    by_cases hB : (p.include_ransac_refinement &&
        !isGloballyPlanar E p
          (normalAndErrorFromCovariance E (collectLabelPoints map normals st label).1.nPoints
            (Vec3.smul (1 / ((collectLabelPoints map normals st label).1.nPoints : ℚ))
              (collectLabelPoints map normals st label).1.sum)
            (collectLabelPoints map normals st label).1.sumSquared).1
          (Vec3.smul (1 / ((collectLabelPoints map normals st label).1.nPoints : ℚ))
            (collectLabelPoints map normals st label).1.sum)
          (collectLabelPoints map normals st label).2) = true
    · rw [if_pos hB, refineLabelWithRansac_highest]
      have : (0 : ℤ) ≤ (((E.ransac (collectLabelPoints map normals st label).2).1.length - 1 : ℕ) : ℤ) :=
        Int.ofNat_nonneg _
      omega
    · rw [if_neg hB]
      by_cases hC : angleBetweenNormalizedVectorsInDegrees E
          (normalAndErrorFromCovariance E (collectLabelPoints map normals st label).1.nPoints
            (Vec3.smul (1 / ((collectLabelPoints map normals st label).1.nPoints : ℚ))
              (collectLabelPoints map normals st label).1.sum)
            (collectLabelPoints map normals st label).1.sumSquared).1 Vec3.unitZ <
          p.plane_inclination_threshold_degrees
      · rw [if_pos hC]
      · rw [if_neg hC]

theorem computePlaneParametersForLabel_shape (E : Externals) (p : Params) (map : GridMap)
    (normals : ℤ → Vec3) (st : SegMap) (label : ℤ) (hlab : label ≤ st.highestLabel) :
    ∃ tail : List (ℤ × TerrainPlane),
      (computePlaneParametersForLabel E p map normals st label).labelPlaneParameters =
        st.labelPlaneParameters ++ tail ∧
      (∀ e ∈ tail, e.1 = label ∨ (st.highestLabel < e.1 ∧
        e.1 ≤ (computePlaneParametersForLabel E p map normals st label).highestLabel)) ∧
      (tail.map Prod.fst).Nodup := by
  simp only [computePlaneParametersForLabel]
  by_cases hA : (collectLabelPoints map normals st label).1.nPoints <
      p.min_number_points_per_label ∨ (collectLabelPoints map normals st label).1.nPoints < 3
  · rw [if_pos hA]
    exact ⟨[], by simp, by simp, by simp⟩
  · rw [if_neg hA]
    by_cases hB : (p.include_ransac_refinement &&
        !isGloballyPlanar E p
          (normalAndErrorFromCovariance E (collectLabelPoints map normals st label).1.nPoints
            (Vec3.smul (1 / ((collectLabelPoints map normals st label).1.nPoints : ℚ))
              (collectLabelPoints map normals st label).1.sum)
            (collectLabelPoints map normals st label).1.sumSquared).1
          (Vec3.smul (1 / ((collectLabelPoints map normals st label).1.nPoints : ℚ))
            (collectLabelPoints map normals st label).1.sum)
          (collectLabelPoints map normals st label).2) = true
    · rw [if_pos hB]
      refine ⟨refinedEntries E p (collectLabelPoints map normals st label).2 label
        (E.ransac (collectLabelPoints map normals st label).2).1 true st.highestLabel,
        ?_, ?_, ?_⟩
      · simp only [refineLabelWithRansac]
        exact refinePlanesGo_entries E p map label (collectLabelPoints map normals st label).2
          (E.ransac (collectLabelPoints map normals st label).2).1 true st
      · intro e he
        obtain ⟨k, hk, hek⟩ := refinedEntries_labels E p
          (collectLabelPoints map normals st label).2 label
          (E.ransac (collectLabelPoints map normals st label).2).1 st.highestLabel e he
        cases k with
        | zero => left; simpa [assignedLabel] using hek
        | succ k2 =>
            right
            rw [refineLabelWithRansac_highest]
            simp only [assignedLabel, Nat.succ_ne_zero, if_false] at hek
            constructor
            · omega
            · rw [hek]
              have hlen : k2 + 1 < (E.ransac (collectLabelPoints map normals st label).2).1.length := hk
              omega
      · exact refinedEntries_nodup_true E p (collectLabelPoints map normals st label).2 label
          (E.ransac (collectLabelPoints map normals st label).2).1 st.highestLabel hlab
    · rw [if_neg hB]
      by_cases hC : angleBetweenNormalizedVectorsInDegrees E
          (normalAndErrorFromCovariance E (collectLabelPoints map normals st label).1.nPoints
            (Vec3.smul (1 / ((collectLabelPoints map normals st label).1.nPoints : ℚ))
              (collectLabelPoints map normals st label).1.sum)
            (collectLabelPoints map normals st label).1.sumSquared).1 Vec3.unitZ <
          p.plane_inclination_threshold_degrees
      · rw [if_pos hC]
        refine ⟨_, rfl, ?_, ?_⟩
        · intro e he
          simp only [List.mem_singleton] at he
          subst he
          left
          rfl
        · simp
      · rw [if_neg hC]
        exact ⟨[], by simp, by simp, by simp⟩

theorem extractGo_append (E : Externals) (p : Params) (map : GridMap) (normals : ℤ → Vec3) :
    ∀ (xs ys : List ℤ) (st : SegMap),
      extractGo E p map normals (xs ++ ys) st =
        extractGo E p map normals ys (extractGo E p map normals xs st) := by
  intro xs
  induction xs with
  | nil => intro ys st; simp [extractGo]
  | cons x xs ih => intro ys st; simp only [List.cons_append, extractGo]; exact ih ys _

theorem extractGo_highest_mono (E : Externals) (p : Params) (map : GridMap)
    (normals : ℤ → Vec3) :
    ∀ (labels : List ℤ) (st : SegMap),
      st.highestLabel ≤ (extractGo E p map normals labels st).highestLabel := by
  intro labels
  induction labels with
  | nil => intro st; exact le_refl _
  | cons l ls ih =>
      intro st
      simp only [extractGo]
      exact le_trans (computePlaneParametersForLabel_highest E p map normals st l) (ih _)

theorem regionLabelList_nodup (n : ℤ) : (regionLabelList n).Nodup := by
  unfold regionLabelList
  exact List.Nodup.map (fun a b hab => by omega) (List.nodup_range _)

theorem regionLabelList_mem (n l : ℤ) (hl : l ∈ regionLabelList n) : 1 ≤ l ∧ l ≤ n := by
  unfold regionLabelList at hl
  simp only [List.mem_map, List.mem_range] at hl
  obtain ⟨k, hk, rfl⟩ := hl
  omega

theorem extract_nodup_aux (E : Externals) (p : Params) (map : GridMap) (normals : ℤ → Vec3) :
    ∀ (labels : List ℤ) (st : SegMap),
      labels.Nodup →
      (∀ l ∈ labels, l ≤ st.highestLabel) →
      (∀ e ∈ st.labelPlaneParameters, e.1 ∉ labels) →
      (∀ e ∈ st.labelPlaneParameters, e.1 ≤ st.highestLabel) →
      ((st.labelPlaneParameters.map Prod.fst).Nodup) →
      ((extractGo E p map normals labels st).labelPlaneParameters.map Prod.fst).Nodup := by
  intro labels
  induction labels with
  | nil => intro st _ _ _ _ h5; simpa [extractGo] using h5
  | cons l ls ih =>
      intro st h1 h2 h3 h4 h5
      simp only [extractGo]
      obtain ⟨tail, htail, hlabels, hnodup⟩ :=
        computePlaneParametersForLabel_shape E p map normals st l (h2 l (List.mem_cons_self l ls))
      have hmono := computePlaneParametersForLabel_highest E p map normals st l
      apply ih
      · exact h1.of_cons
      · intro l2 hl2
        exact le_trans (h2 l2 (List.mem_cons_of_mem l hl2)) hmono
      · intro e he
        rw [htail] at he
        rcases List.mem_append.mp he with hold | hnew
        · intro hmem
          exact h3 e hold (List.mem_cons_of_mem l hmem)
        · rcases hlabels e hnew with heq | ⟨hgt, _⟩
          · intro hmem
            rw [heq] at hmem
            exact (List.nodup_cons.mp h1).1 hmem
          · intro hmem
            have := h2 e.1 (List.mem_cons_of_mem l hmem)
            omega
      · intro e he
        rw [htail] at he
        rcases List.mem_append.mp he with hold | hnew
        · exact le_trans (h4 e hold) hmono
        · rcases hlabels e hnew with heq | ⟨_, hle⟩
          · rw [heq]; exact le_trans (h2 l (List.mem_cons_self l ls)) hmono
          · exact hle
      · rw [htail, List.map_append, List.nodup_append]
        refine ⟨h5, hnodup, ?_⟩
        intro a ha hb
        simp only [List.mem_map] at ha hb
        obtain ⟨e1, he1, rfl⟩ := ha
        obtain ⟨e2, he2, he2eq⟩ := hb
        rcases hlabels e2 he2 with heq | ⟨hgt, _⟩
        · apply h3 e1 he1
          have he1l : e1.1 = l := by rw [← he2eq, heq]
          rw [he1l]
          exact List.mem_cons_self l ls
        · have h1e := h4 e1 he1
          rw [he2eq] at hgt
          omega

/-- C4: after a complete extraction run, every label value appears at
most once in labelPlaneParameters: the labels of the emitted entries
are pairwise distinct, because the per-region loop emits at most one
entry per original label and refinement mints strictly increasing fresh
labels above the running highestLabel. -/
theorem c4_label_appears_at_most_once (E : Externals) (p : Params) (map : GridMap) :
    (((runExtraction E p map).labelPlaneParameters).map Prod.fst).Nodup := by
  have hrun : runExtraction E p map = extractGo E p map (segmentedState E p map).2
      (regionLabelList (segmentedState E p map).1.highestLabel) (segmentedState E p map).1 := rfl
  rw [hrun]
  apply extract_nodup_aux
  · exact regionLabelList_nodup _
  · intro l hl; exact (regionLabelList_mem _ l hl).2
  · intro e he
    simp only [segmentedState] at he
    simp at he
  · intro e he
    simp only [segmentedState] at he
    simp at he
  · simp only [segmentedState]
    simp

theorem extract_pos_aux (E : Externals) (p : Params) (map : GridMap) (normals : ℤ → Vec3) :
    ∀ (labels : List ℤ) (st : SegMap),
      (∀ l ∈ labels, 1 ≤ l) →
      (∀ l ∈ labels, l ≤ st.highestLabel) →
      (∀ e ∈ st.labelPlaneParameters, 1 ≤ e.1) →
      ∀ e ∈ (extractGo E p map normals labels st).labelPlaneParameters, 1 ≤ e.1 := by
  intro labels
  induction labels with
  | nil => intro st _ _ h3 e he; exact h3 e (by simpa [extractGo] using he)
  | cons l ls ih =>
      intro st h1 h2 h3 e he
      simp only [extractGo] at he
      obtain ⟨tail, htail, hlabels, _⟩ :=
        computePlaneParametersForLabel_shape E p map normals st l (h2 l (List.mem_cons_self l ls))
      have hmono := computePlaneParametersForLabel_highest E p map normals st l
      refine ih _ (fun l2 hl2 => h1 l2 (List.mem_cons_of_mem l hl2))
        (fun l2 hl2 => le_trans (h2 l2 (List.mem_cons_of_mem l hl2)) hmono) ?_ e he
      intro e2 he2
      rw [htail] at he2
      rcases List.mem_append.mp he2 with hold | hnew
      · exact h3 e2 hold
      · rcases hlabels e2 hnew with heq | ⟨hgt, _⟩
        · rw [heq]; exact h1 l (List.mem_cons_self l ls)
        · have := h2 l (List.mem_cons_self l ls)
          have := h1 l (List.mem_cons_self l ls)
          omega

/-- C10: every (label, plane) pair appended to labelPlaneParameters in
a run has label ≥ 1 — the background label 0 never receives a plane
descriptor, because the per-region loop starts at label 1 and
refinement only emits under the original label or labels above the
running highestLabel. -/
theorem c10_no_plane_for_background (E : Externals) (p : Params) (map : GridMap) :
    ∀ e ∈ (runExtraction E p map).labelPlaneParameters, 1 ≤ e.1 := by
  have hrun : runExtraction E p map = extractGo E p map (segmentedState E p map).2
      (regionLabelList (segmentedState E p map).1.highestLabel) (segmentedState E p map).1 := rfl
  rw [hrun]
  apply extract_pos_aux
  · intro l hl; exact (regionLabelList_mem _ l hl).1
  · intro l hl; exact (regionLabelList_mem _ l hl).2
  · intro e he
    simp only [segmentedState] at he
    simp at he

/-- Witness for C10: a concrete full run (2×2 flat map, kernel 1, the
whole raster one region labeled 1) emits the entry (1, plane) and its
label is ≥ 1. -/
theorem c10_no_plane_for_background_wit :
    ((1 : ℤ), (⟨⟨-1/2, -1/2, 0⟩, Vec3.unitZ⟩ : TerrainPlane)) ∈
        (runExtraction EwitCC paramsK1 map2).labelPlaneParameters ∧
      (1 : ℤ) ≤ ((1 : ℤ), (⟨⟨-1/2, -1/2, 0⟩, Vec3.unitZ⟩ : TerrainPlane)).1 :=
  ⟨by decide, c10_no_plane_for_background EwitCC paramsK1 map2
    ((1 : ℤ), (⟨⟨-1/2, -1/2, 0⟩, Vec3.unitZ⟩ : TerrainPlane)) (by decide)⟩

/-- C5: within a run, the highestLabel is monotonically non-decreasing
across the per-region loop from the value segmentation set, every
intermediate highestLabel is at least the initial highestLabel captured
before the loop, and every fresh label minted by refinement
(assignedLabel of a subsequent plane, computed from the running
highestLabel) is strictly greater than that initial highestLabel — so
a fresh label never collides with any original label and no label id
is reused in the run. -/
theorem c5_highest_label_monotone (E : Externals) (p : Params) (map : GridMap) (k : ℕ) :
    (stateAfterRegions E p map k).highestLabel ≤
        (stateAfterRegions E p map (k + 1)).highestLabel ∧
      initialHighestLabel E p map ≤ (stateAfterRegions E p map k).highestLabel ∧
      (∀ (l : ℤ) (j : ℕ), 1 ≤ j →
        initialHighestLabel E p map <
          assignedLabel (stateAfterRegions E p map k).highestLabel l j) := by
  have hmono2 : initialHighestLabel E p map ≤ (stateAfterRegions E p map k).highestLabel :=
    extractGo_highest_mono E p map (segmentedState E p map).2 _ (segmentedState E p map).1
  refine ⟨?_, hmono2, ?_⟩
  · unfold stateAfterRegions
    rw [List.take_succ, extractGo_append]
    cases hk : (regionLabelList (segmentedState E p map).1.highestLabel)[k]? with
    | none => simp [extractGo]
    | some l =>
        simp only [Option.toList, extractGo]
        exact computePlaneParametersForLabel_highest E p map (segmentedState E p map).2 _ l
  · intro l j hj
    simp only [assignedLabel]
    rw [if_neg (by omega)]
    omega

/-- Witness for C5: at the concrete run, a fresh label minted from the
state after one region is strictly above the initial highestLabel. -/
theorem c5_highest_label_monotone_wit :
    initialHighestLabel EwitCC paramsK1 map2 <
      assignedLabel (stateAfterRegions EwitCC paramsK1 map2 1).highestLabel 1 1 :=
  (c5_highest_label_monotone EwitCC paramsK1 map2 1).2.2 1 1 (by decide)

/-! ### Lemmas for the background-stability invariant -/

theorem windowBlock_middle (map : GridMap) (p : Params) (rc : ℤ × ℤ) :
    windowBlock map p rc (kernelMiddle p) (kernelMiddle p) = map.height rc.1 rc.2 := by
  unfold windowBlock
  have h1 : rc.1 - (kernelMiddle p : ℤ) + (kernelMiddle p : ℤ) = rc.1 := by ring
  have h2 : rc.2 - (kernelMiddle p : ℤ) + (kernelMiddle p : ℤ) = rc.2 := by ring
  rw [h1, h2]

theorem scanStep_mask (E : Externals) (p : Params) (map : GridMap)
    (s : (ℤ → Vec3) × (ℤ → ℤ → Bool)) (rc : ℤ × ℤ) (r c : ℤ)
    (h : (scanStep E p map s rc).2 r c = true) :
    s.2 r c = true ∨ ((r, c) = rc ∧ map.height r c ≠ none) := by
  simp only [scanStep] at h
  rcases hm : windowBlock map p rc (kernelMiddle p) (kernelMiddle p) with _ | hgt
  · rw [hm] at h
    simp only [updMask] at h
    by_cases he : (r, c) = rc
    · rw [if_pos he] at h
      exact absurd h (by simp)
    · rw [if_neg he] at h
      exact Or.inl h
  · rw [hm] at h
    simp only [updMask] at h
    by_cases he : (r, c) = rc
    · refine Or.inr ⟨he, ?_⟩
      have hr : r = rc.1 := congrArg Prod.fst he
      have hc : c = rc.2 := congrArg Prod.snd he
      rw [hr, hc, ← windowBlock_middle map p rc, hm]
      simp
    · rw [if_neg he] at h
      exact Or.inl h

theorem scanFold_mask_finite (E : Externals) (p : Params) (map : GridMap) :
    ∀ (cells : List (ℤ × ℤ)) (s : (ℤ → Vec3) × (ℤ → ℤ → Bool)),
      (∀ r c : ℤ, s.2 r c = true → map.height r c ≠ none) →
      ∀ r c : ℤ, (cells.foldl (scanStep E p map) s).2 r c = true → map.height r c ≠ none := by
  intro cells
  induction cells with
  | nil => intro s hs; exact hs
  | cons rc cs ih =>
      intro s hs r c h
      simp only [List.foldl_cons] at h
      refine ih _ ?_ r c h
      intro r2 c2 h2
      rcases scanStep_mask E p map s rc r2 c2 h2 with hold | ⟨_, hfin⟩
      · exact hs r2 c2 hold
      · exact hfin

theorem crossOffsets_center (e : ℕ) : ((0 : ℤ), (0 : ℤ)) ∈ crossOffsets e := by
  unfold crossOffsets
  refine List.mem_append.mpr (Or.inl ?_)
  simp only [List.mem_map, List.mem_range]
  exact ⟨e, by omega, by simp⟩

theorem erodeCross_center (rows cols e : ℕ) (mask : ℤ → ℤ → Bool) (r c : ℤ)
    (h1 : 0 ≤ r) (h2 : r < rows) (h3 : 0 ≤ c) (h4 : c < cols)
    (h : erodeCross rows cols e mask r c = true) : mask r c = true := by
  unfold erodeCross at h
  rw [List.all_eq_true] at h
  have hc := h ((0 : ℤ), (0 : ℤ)) (crossOffsets_center e)
  simp only at hc
  rw [if_pos (by constructor <;> [omega; constructor <;> [omega; exact ⟨by omega, by omega⟩]])] at hc
  simpa using hc

theorem detectorState_mask_finite (E : Externals) (p : Params) (map : GridMap)
    (r c : ℤ) (h1 : 0 ≤ r) (h2 : r < map.rows) (h3 : 0 ≤ c) (h4 : c < map.cols)
    (h : (detectorState E p map).2 r c = true) : map.height r c ≠ none := by
  unfold detectorState at h
  by_cases he : 0 < p.planarity_erosion
  · rw [if_pos he] at h
    simp only at h
    have hscan := erodeCross_center map.rows map.cols p.planarity_erosion.toNat _ r c h1 h2 h3 h4 h
    exact scanFold_mask_finite E p map (visitedCells map p) _ (fun _ _ hx => by simp at hx)
      r c hscan
  · rw [if_neg he] at h
    exact scanFold_mask_finite E p map (visitedCells map p) _ (fun _ _ hx => by simp at hx) r c h

theorem colMajorCells_mem (rows cols : ℕ) (rc : ℤ × ℤ) (h : rc ∈ colMajorCells rows cols) :
    0 ≤ rc.1 ∧ rc.1 < rows ∧ 0 ≤ rc.2 ∧ rc.2 < cols := by
  simp only [colMajorCells, List.mem_flatMap, List.mem_map, List.mem_range] at h
  obtain ⟨c, hc, r, hr, rfl⟩ := h
  refine ⟨by simp, by simpa using hr, by simp, by simpa using hc⟩

theorem collectLabelPoints_points (map : GridMap) (normals : ℤ → Vec3) (st : SegMap)
    (label : ℤ) :
    ∀ pw ∈ (collectLabelPoints map normals st label).2, ∃ r c : ℤ, ∃ hgt : ℚ,
      0 ≤ r ∧ r < map.rows ∧ 0 ≤ c ∧ c < map.cols ∧ map.height r c = some hgt ∧
      pw.1 = ⟨st.mapOriginX - r * st.resolution, st.mapOriginY - c * st.resolution, hgt⟩ := by
  have hgen : ∀ (cells : List (ℤ × ℤ)) (acc : Accum × List PointWithNormal),
      (∀ rc ∈ cells, 0 ≤ rc.1 ∧ rc.1 < map.rows ∧ 0 ≤ rc.2 ∧ rc.2 < map.cols) →
      (∀ pw ∈ acc.2, ∃ r c : ℤ, ∃ hgt : ℚ,
        0 ≤ r ∧ r < map.rows ∧ 0 ≤ c ∧ c < map.cols ∧ map.height r c = some hgt ∧
        pw.1 = ⟨st.mapOriginX - r * st.resolution, st.mapOriginY - c * st.resolution, hgt⟩) →
      ∀ pw ∈ (cells.foldl (collectStep map normals st label) acc).2, ∃ r c : ℤ, ∃ hgt : ℚ,
        0 ≤ r ∧ r < map.rows ∧ 0 ≤ c ∧ c < map.cols ∧ map.height r c = some hgt ∧
        pw.1 = ⟨st.mapOriginX - r * st.resolution, st.mapOriginY - c * st.resolution, hgt⟩ := by
    intro cells
    induction cells with
    | nil => intro acc _ hacc pw hpw; exact hacc pw hpw
    | cons rc cs ih =>
        intro acc hcells hacc pw hpw
        simp only [List.foldl_cons] at hpw
        refine ih _ (fun rc2 h2 => hcells rc2 (List.mem_cons_of_mem rc h2)) ?_ pw hpw
        intro pw2 hpw2
        simp only [collectStep] at hpw2
        by_cases hl : st.labeledImage rc.1 rc.2 = label
        · rw [if_pos hl] at hpw2
          rcases hh : map.height rc.1 rc.2 with _ | hgt
          · rw [hh] at hpw2
            exact hacc pw2 hpw2
          · rw [hh] at hpw2
            simp only [List.mem_append, List.mem_singleton] at hpw2
            rcases hpw2 with hold | hnew
            · exact hacc pw2 hold
            · obtain ⟨hb1, hb2, hb3, hb4⟩ := hcells rc (List.mem_cons_self rc cs)
              exact ⟨rc.1, rc.2, hgt, hb1, hb2, hb3, hb4, hh, by rw [hnew]⟩
        · rw [if_neg hl] at hpw2
          exact hacc pw2 hpw2
  exact hgen (colMajorCells map.rows map.cols) (Accum.init, [])
    (fun rc h => colMajorCells_mem map.rows map.cols rc h) (by simp)

theorem refinePlanesGo_img_cases (E : Externals) (p : Params) (map : GridMap) (label : ℤ)
    (pts : List PointWithNormal) :
    ∀ (planes : List (List ℕ)) (reuse : Bool) (st : SegMap) (r c : ℤ),
      (refinePlanesGo E p map label pts planes reuse st).labeledImage r c =
          st.labeledImage r c ∨
        ∃ k, k < planes.length ∧ ∃ i ∈ planes.getD k [], cellOfIndex map pts i = (r, c) := by
  intro planes
  induction planes with
  | nil => intro reuse st r c; left; simp [refinePlanesGo]
  | cons idxs rest ih =>
      intro reuse st r c
      simp only [refinePlanesGo]
      rcases ih false _ r c with h | ⟨k, hk, i, hi, hcell⟩
      · rw [h]
        dsimp only
        by_cases hnl : (if reuse = true then label else st.highestLabel + 1) ≠ label
        · rw [if_pos hnl, writeCells_apply]
          by_cases hex : ∃ i ∈ idxs, cellOfIndex map pts i = (r, c)
          · right
            obtain ⟨i, hi, hc⟩ := hex
            exact ⟨0, by simp, i, by simpa using hi, hc⟩
          · rw [if_neg hex]
            left
            cases reuse <;> rfl
        · rw [if_neg hnl]
          left
          cases reuse <;> rfl
      · right
        exact ⟨k + 1, by simpa using Nat.succ_lt_succ hk, i,
          by simpa [List.getD_cons_succ] using hi, hcell⟩

theorem refinePlanesGo_meta (E : Externals) (p : Params) (map : GridMap) (label : ℤ)
    (pts : List PointWithNormal) :
    ∀ (planes : List (List ℕ)) (reuse : Bool) (st : SegMap),
      (refinePlanesGo E p map label pts planes reuse st).resolution = st.resolution ∧
        (refinePlanesGo E p map label pts planes reuse st).mapOriginX = st.mapOriginX ∧
        (refinePlanesGo E p map label pts planes reuse st).mapOriginY = st.mapOriginY := by
  intro planes
  induction planes with
  | nil => intro reuse st; exact ⟨rfl, rfl, rfl⟩
  | cons idxs rest ih =>
      intro reuse st
      simp only [refinePlanesGo]
      refine ⟨?_, ?_, ?_⟩
      · rw [(ih false _).1]; cases reuse <;> rfl
      · rw [(ih false _).2.1]; cases reuse <;> rfl
      · rw [(ih false _).2.2]; cases reuse <;> rfl

theorem computePlaneParametersForLabel_meta (E : Externals) (p : Params) (map : GridMap)
    (normals : ℤ → Vec3) (st : SegMap) (label : ℤ) :
    (computePlaneParametersForLabel E p map normals st label).resolution = st.resolution ∧
      (computePlaneParametersForLabel E p map normals st label).mapOriginX = st.mapOriginX ∧
      (computePlaneParametersForLabel E p map normals st label).mapOriginY = st.mapOriginY := by
  simp only [computePlaneParametersForLabel]
  by_cases hA : (collectLabelPoints map normals st label).1.nPoints <
      p.min_number_points_per_label ∨ (collectLabelPoints map normals st label).1.nPoints < 3
  · rw [if_pos hA]
    exact ⟨rfl, rfl, rfl⟩
  · rw [if_neg hA]
    by_cases hB : (p.include_ransac_refinement &&
        !isGloballyPlanar E p
          (normalAndErrorFromCovariance E (collectLabelPoints map normals st label).1.nPoints
            (Vec3.smul (1 / ((collectLabelPoints map normals st label).1.nPoints : ℚ))
              (collectLabelPoints map normals st label).1.sum)
            (collectLabelPoints map normals st label).1.sumSquared).1
          (Vec3.smul (1 / ((collectLabelPoints map normals st label).1.nPoints : ℚ))
            (collectLabelPoints map normals st label).1.sum)
          (collectLabelPoints map normals st label).2) = true
    · rw [if_pos hB]
      simp only [refineLabelWithRansac]
      exact refinePlanesGo_meta E p map label (collectLabelPoints map normals st label).2
        (E.ransac (collectLabelPoints map normals st label).2).1 true st
    · rw [if_neg hB]
      by_cases hC : angleBetweenNormalizedVectorsInDegrees E
          (normalAndErrorFromCovariance E (collectLabelPoints map normals st label).1.nPoints
            (Vec3.smul (1 / ((collectLabelPoints map normals st label).1.nPoints : ℚ))
              (collectLabelPoints map normals st label).1.sum)
            (collectLabelPoints map normals st label).1.sumSquared).1 Vec3.unitZ <
          p.plane_inclination_threshold_degrees
      · rw [if_pos hC]
        exact ⟨rfl, rfl, rfl⟩
      · rw [if_neg hC]
        exact ⟨rfl, rfl, rfl⟩

theorem computePlaneParametersForLabel_bg (E : Externals) (p : Params) (map : GridMap)
    (normals : ℤ → Vec3) (st : SegMap) (label : ℤ)
    (hidx : ∀ r c : ℤ, 0 ≤ r → r < map.rows → 0 ≤ c → c < map.cols →
      map.getIndex (map.originX - r * map.resolution) (map.originY - c * map.resolution) = (r, c))
    (hrv : ∀ l : List PointWithNormal, ∀ idxs ∈ (E.ransac l).1, ∀ i ∈ idxs, i < l.length)
    (hres : st.resolution = map.resolution) (hox : st.mapOriginX = map.originX)
    (hoy : st.mapOriginY = map.originY)
    (hbg : ∀ r c : ℤ, 0 ≤ r → r < map.rows → 0 ≤ c → c < map.cols →
      map.height r c = none → st.labeledImage r c = 0) :
    ∀ r c : ℤ, 0 ≤ r → r < map.rows → 0 ≤ c → c < map.cols → map.height r c = none →
      (computePlaneParametersForLabel E p map normals st label).labeledImage r c = 0 := by
  intro r c h1 h2 h3 h4 hnone
  simp only [computePlaneParametersForLabel]
  by_cases hA : (collectLabelPoints map normals st label).1.nPoints <
      p.min_number_points_per_label ∨ (collectLabelPoints map normals st label).1.nPoints < 3
  · rw [if_pos hA]
    exact hbg r c h1 h2 h3 h4 hnone
  · rw [if_neg hA]
    by_cases hB : (p.include_ransac_refinement &&
        !isGloballyPlanar E p
          (normalAndErrorFromCovariance E (collectLabelPoints map normals st label).1.nPoints
            (Vec3.smul (1 / ((collectLabelPoints map normals st label).1.nPoints : ℚ))
              (collectLabelPoints map normals st label).1.sum)
            (collectLabelPoints map normals st label).1.sumSquared).1
          (Vec3.smul (1 / ((collectLabelPoints map normals st label).1.nPoints : ℚ))
            (collectLabelPoints map normals st label).1.sum)
          (collectLabelPoints map normals st label).2) = true
    · rw [if_pos hB]
      simp only [refineLabelWithRansac]
      rw [writeCells_apply]
      by_cases hex : ∃ i ∈ (E.ransac (collectLabelPoints map normals st label).2).2,
          cellOfIndex map (collectLabelPoints map normals st label).2 i = (r, c)
      · rw [if_pos hex]
      · rw [if_neg hex]
        rcases refinePlanesGo_img_cases E p map label (collectLabelPoints map normals st label).2
            (E.ransac (collectLabelPoints map normals st label).2).1 true st r c with
          hsame | ⟨k, hk, i, hi, hcell⟩
        · rw [hsame]
          exact hbg r c h1 h2 h3 h4 hnone
        · exfalso
          have hplmem : (E.ransac (collectLabelPoints map normals st label).2).1.getD k [] ∈
              (E.ransac (collectLabelPoints map normals st label).2).1 := by
            rw [List.getD_eq_getElem _ _ hk]
            exact List.getElem_mem _
          have hilen : i < (collectLabelPoints map normals st label).2.length :=
            hrv (collectLabelPoints map normals st label).2 _ hplmem i hi
          have hmem : (collectLabelPoints map normals st label).2.getD i
              (Vec3.zero, Vec3.zero) ∈ (collectLabelPoints map normals st label).2 := by
            rw [List.getD_eq_getElem _ _ hilen]
            exact List.getElem_mem _
          obtain ⟨r2, c2, hgt, hb1, hb2, hb3, hb4, hheight, hpt⟩ :=
            collectLabelPoints_points map normals st label _ hmem
          have hcell2 : cellOfIndex map (collectLabelPoints map normals st label).2 i =
              (r2, c2) := by
            simp only [cellOfIndex]
            rw [hpt]
            rw [hres, hox, hoy]
            exact hidx r2 c2 hb1 hb2 hb3 hb4
          rw [hcell2] at hcell
          have hr2 : r2 = r := congrArg Prod.fst hcell
          have hc2 : c2 = c := congrArg Prod.snd hcell
          rw [hr2, hc2] at hheight
          rw [hheight] at hnone
          exact Option.noConfusion hnone
    · rw [if_neg hB]
      by_cases hC : angleBetweenNormalizedVectorsInDegrees E
          (normalAndErrorFromCovariance E (collectLabelPoints map normals st label).1.nPoints
            (Vec3.smul (1 / ((collectLabelPoints map normals st label).1.nPoints : ℚ))
              (collectLabelPoints map normals st label).1.sum)
            (collectLabelPoints map normals st label).1.sumSquared).1 Vec3.unitZ <
          p.plane_inclination_threshold_degrees
      · rw [if_pos hC]
        exact hbg r c h1 h2 h3 h4 hnone
      · rw [if_neg hC]
        exact hbg r c h1 h2 h3 h4 hnone

theorem extractGo_bg_aux (E : Externals) (p : Params) (map : GridMap) (normals : ℤ → Vec3)
    (hidx : ∀ r c : ℤ, 0 ≤ r → r < map.rows → 0 ≤ c → c < map.cols →
      map.getIndex (map.originX - r * map.resolution) (map.originY - c * map.resolution) = (r, c))
    (hrv : ∀ l : List PointWithNormal, ∀ idxs ∈ (E.ransac l).1, ∀ i ∈ idxs, i < l.length) :
    ∀ (labels : List ℤ) (st : SegMap),
      st.resolution = map.resolution → st.mapOriginX = map.originX →
      st.mapOriginY = map.originY →
      (∀ r c : ℤ, 0 ≤ r → r < map.rows → 0 ≤ c → c < map.cols → map.height r c = none →
        st.labeledImage r c = 0) →
      ∀ r c : ℤ, 0 ≤ r → r < map.rows → 0 ≤ c → c < map.cols → map.height r c = none →
        (extractGo E p map normals labels st).labeledImage r c = 0 := by
  intro labels
  induction labels with
  | nil => intro st _ _ _ hbg r c h1 h2 h3 h4 hnone; exact hbg r c h1 h2 h3 h4 hnone
  | cons l ls ih =>
      intro st hres hox hoy hbg r c h1 h2 h3 h4 hnone
      simp only [extractGo]
      obtain ⟨hm1, hm2, hm3⟩ := computePlaneParametersForLabel_meta E p map normals st l
      exact ih _ (by rw [hm1, hres]) (by rw [hm2, hox]) (by rw [hm3, hoy])
        (computePlaneParametersForLabel_bg E p map normals st l hidx hrv hres hox hoy hbg)
        r c h1 h2 h3 h4 hnone

/-- C7: in every intermediate and final labeled raster of a run (the
post-segmentation state and the state after each region of the
per-region loop), every in-raster cell whose height is non-finite
carries label 0 — assuming the connected-components background
contract (mask-false cells get label 0), the world-to-index lookup
inverting cell centers, and the detector returning valid point
indices.  The detector marks non-finite cells non-planar, collection
gathers only finite cells, and refinement relabels only collected
(finite) cells, so no step assigns a positive label to a
non-finite-height cell. -/
theorem c7_background_stability (E : Externals) (p : Params) (map : GridMap)
    (hcc : ∀ (m : ℤ → ℤ → Bool) (r c : ℤ), m r c = false → (E.connComp m).1 r c = 0)
    (hidx : ∀ r c : ℤ, 0 ≤ r → r < map.rows → 0 ≤ c → c < map.cols →
      map.getIndex (map.originX - r * map.resolution) (map.originY - c * map.resolution) = (r, c))
    (hrv : ∀ l : List PointWithNormal, ∀ idxs ∈ (E.ransac l).1, ∀ i ∈ idxs, i < l.length) :
    ∀ (k : ℕ) (r c : ℤ), 0 ≤ r → r < map.rows → 0 ≤ c → c < map.cols →
      map.height r c = none → (stateAfterRegions E p map k).labeledImage r c = 0 := by
  have hseg : ∀ r c : ℤ, 0 ≤ r → r < map.rows → 0 ≤ c → c < map.cols →
      map.height r c = none → (segmentedState E p map).1.labeledImage r c = 0 := by
    intro r c h1 h2 h3 h4 hnone
    have hlab : (segmentedState E p map).1.labeledImage =
        (E.connComp (detectorState E p map).2).1 := rfl
    rw [hlab]
    apply hcc
    by_cases hm : (detectorState E p map).2 r c = true
    · exact absurd (detectorState_mask_finite E p map r c h1 h2 h3 h4 hm) (by simp [hnone])
    · exact Bool.not_eq_true _ ▸ hm
  intro k r c h1 h2 h3 h4 hnone
  unfold stateAfterRegions
  exact extractGo_bg_aux E p map (segmentedState E p map).2 hidx hrv _
    (segmentedState E p map).1 rfl rfl rfl hseg r c h1 h2 h3 h4 hnone

/-- Witness for C7: on the concrete map whose cell (0,0) is non-finite,
after one region of the loop the cell still carries label 0. -/
theorem c7_background_stability_wit :
    (stateAfterRegions EwitHC paramsK1 mapC7 1).labeledImage 0 0 = 0 :=
  c7_background_stability EwitHC paramsK1 mapC7
    (by intro m r c h; simp only [EwitHC]; simp [h])
    (by
      intro r c _ _ _ _
      simp only [mapC7]
      norm_num)
    (by intro l idxs h; simp only [EwitHC, Ewit] at h; simp at h)
    1 0 0 (by decide) (by decide) (by decide) (by decide) (by decide)

/-! ### The normal buffer initialization (claims about surfaceNormals) -/

/-- C8: the initialization of the normal buffer never changes its size:
`reserve` grows only the capacity and `fill_n` writes through `begin()`
without resizing, so on a fresh extractor (size 0) the buffer size
stays below the raster cell count and every subsequent per-cell access
indexes beyond `size()` — the code contradicts its own comment ("Need a
buffer of at least the linear size of the image"); the intended call is
`resize`. -/
theorem c8_reserve_never_resizes (buf : NormalBuffer) (linearMapSize : ℕ) :
    (initSurfaceNormals buf linearMapSize).size = buf.size := by
  unfold initSurfaceNormals
  split <;> rfl

/-- Witness for C8: a fresh extractor (empty buffer) initialized for a
2×2 map is left with size 0 < 4. -/
theorem c8_reserve_never_resizes_wit :
    (initSurfaceNormals ⟨0, fun _ => Vec3.unitZ⟩ 4).size = 0 ∧ (0 : ℕ) < 4 :=
  ⟨c8_reserve_never_resizes ⟨0, fun _ => Vec3.unitZ⟩ 4, by decide⟩

/-- Counterexample to C9 as stated: after the fresh-run initialization
the unwritten entries hold `Vector3d::Zero()`, the zero vector — not
the "up" unit vector (0,0,1); the zero vector is not unit length. -/
theorem c9_counterexample :
    (initSurfaceNormals ⟨0, fun _ => Vec3.unitZ⟩ 4).data 0 = Vec3.zero ∧
      Vec3.normSq ((initSurfaceNormals ⟨0, fun _ => Vec3.unitZ⟩ 4).data 0) ≠ 1 ∧
      (initSurfaceNormals ⟨0, fun _ => Vec3.unitZ⟩ 4).data 0 ≠ Vec3.unitZ := by
  refine ⟨by decide, by decide, by decide⟩

theorem normSq_neg (v : Vec3) : Vec3.normSq (Vec3.neg v) = Vec3.normSq v := by
  simp only [Vec3.neg, Vec3.normSq]
  ring

theorem normalAndError_unit (E : Externals) (numPoint : ℕ) (mean : Vec3)
    (sumSquared : Mat3) (hsolver : ∀ M : Mat3, Vec3.normSq (E.solver M).vec0 = 1) :
    Vec3.normSq (normalAndErrorFromCovariance E numPoint mean sumSquared).1 = 1 := by
  unfold normalAndErrorFromCovariance
  dsimp only
  split
  · split
    · rw [normSq_neg]
      exact hsolver _
    · exact hsolver _
  · norm_num [Vec3.normSq, Vec3.unitZ]

theorem computeNormal_unit (E : Externals) (p : Params) (res : ℚ)
    (w : ℕ → ℕ → Option ℚ) (hsolver : ∀ M : Mat3, Vec3.normSq (E.solver M).vec0 = 1) :
    Vec3.normSq (computeNormalAndErrorForWindow E p res w).1 = 1 := by
  unfold computeNormalAndErrorForWindow
  by_cases h3 : (gatherWindow res p.kernel_size w).nPoints < 3
  · rw [if_pos h3]
    norm_num [Vec3.normSq, Vec3.unitZ]
  · rw [if_neg h3]
    exact normalAndError_unit E _ _ _ hsolver

theorem scanFold_norm_inv (E : Externals) (p : Params) (map : GridMap)
    (hsolver : ∀ M : Mat3, Vec3.normSq (E.solver M).vec0 = 1) :
    ∀ (cells : List (ℤ × ℤ)) (s : (ℤ → Vec3) × (ℤ → ℤ → Bool)) (j : ℤ),
      (cells.foldl (scanStep E p map) s).1 j = s.1 j ∨
        Vec3.normSq ((cells.foldl (scanStep E p map) s).1 j) = 1 := by
  intro cells
  induction cells with
  | nil => intro s j; exact Or.inl rfl
  | cons rc cs ih =>
      intro s j
      simp only [List.foldl_cons]
      rcases ih (scanStep E p map s rc) j with h | h
      · rw [h]
        simp only [scanStep]
        rcases hm : windowBlock map p rc (kernelMiddle p) (kernelMiddle p) with _ | hgt
        · exact Or.inl rfl
        · dsimp only
          simp only [updLin]
          by_cases hj : j = getLinearIndex map.rows rc.1 rc.2
          · rw [if_pos hj]
            exact Or.inr (computeNormal_unit E p map.resolution _ hsolver)
          · rw [if_neg hj]
            exact Or.inl rfl
      · exact Or.inr h

/-- C9 amended: after the fresh-run initialization, every not-yet
written entry of the normal buffer holds the zero vector (the
`Vector3d::Zero()` fill value, which is not unit length) — not the "up"
vector the claim states; and every entry the detector scan writes is a
unit-length vector (the up sentinel or the eigensolver's unit
eigenvector, possibly sign-flipped), assuming the eigensolver returns
unit eigenvectors. -/
theorem c9_zero_fill_and_unit_writes (E : Externals) (p : Params) (map : GridMap)
    (buf : NormalBuffer) (n : ℕ) (i : ℤ)
    (hsz : buf.size < n) (h0 : 0 ≤ i) (hn : i < n)
    (hsolver : ∀ M : Mat3, Vec3.normSq (E.solver M).vec0 = 1) :
    (initSurfaceNormals buf n).data i = Vec3.zero ∧
      (∀ (s : (ℤ → Vec3) × (ℤ → ℤ → Bool)) (j : ℤ),
        (slidingWindowScan E p map s.1 s.2).1 j = s.1 j ∨
          Vec3.normSq ((slidingWindowScan E p map s.1 s.2).1 j) = 1) := by
  constructor
  · unfold initSurfaceNormals
    rw [if_pos hsz]
    dsimp only
    rw [if_pos ⟨h0, hn⟩]
  · intro s j
    exact scanFold_norm_inv E p map hsolver (visitedCells map p) (s.1, s.2) j

/-- Witness for C9 amended: concrete buffer and scan. -/
theorem c9_zero_fill_and_unit_writes_wit :
    (initSurfaceNormals ⟨0, fun _ => Vec3.unitZ⟩ 4).data 2 = Vec3.zero :=
  (c9_zero_fill_and_unit_writes Ewit paramsK1 map2 ⟨0, fun _ => Vec3.unitZ⟩ 4 2
    (by decide) (by decide) (by decide)
    (fun _ => by norm_num [Ewit, diagSolver, Vec3.normSq, Vec3.unitZ])).1

/-! ### The sliding-window detector and the raster boundary (claim C3) -/

theorem getLinearIndex_inj (rows : ℕ) (r1 c1 r2 c2 : ℤ)
    (h1 : 0 ≤ r1) (h2 : r1 < rows) (h3 : 0 ≤ r2) (h4 : r2 < rows)
    (heq : getLinearIndex rows r1 c1 = getLinearIndex rows r2 c2) : r1 = r2 ∧ c1 = c2 := by
  unfold getLinearIndex at heq
  have hr : r1 = r2 := by
    have e1 : (r1 + c1 * rows) % (rows : ℤ) = r1 := by
      rw [Int.add_mul_emod_self]
      exact Int.emod_eq_of_lt h1 h2
    have e2 : (r2 + c2 * rows) % (rows : ℤ) = r2 := by
      rw [Int.add_mul_emod_self]
      exact Int.emod_eq_of_lt h3 h4
    rw [← e1, ← e2, heq]
  refine ⟨hr, ?_⟩
  rw [hr] at heq
  have hc : c1 * (rows : ℤ) = c2 * rows := by linarith
  have hrows : ((rows : ℤ)) ≠ 0 := by omega
  exact mul_right_cancel₀ hrows hc

theorem windowInside_bounds (map : GridMap) (p : Params) (rc : ℤ × ℤ)
    (h : windowInside map p rc = true) :
    0 ≤ rc.1 ∧ rc.1 < map.rows ∧ 0 ≤ rc.2 ∧ rc.2 < map.cols := by
  unfold windowInside at h
  simp only [Bool.and_eq_true, decide_eq_true_eq] at h
  obtain ⟨⟨⟨ha, hb⟩, hc⟩, hd⟩ := h
  have hm : (0 : ℤ) ≤ (kernelMiddle p : ℤ) := Int.ofNat_nonneg _
  omega

theorem allCells_mem (rows cols : ℕ) (rc : ℤ × ℤ) :
    rc ∈ allCells rows cols ↔ 0 ≤ rc.1 ∧ rc.1 < rows ∧ 0 ≤ rc.2 ∧ rc.2 < cols := by
  simp only [allCells, List.mem_flatMap, List.mem_map, List.mem_range]
  constructor
  · rintro ⟨r, hr, c, hc, rfl⟩
    simp only
    refine ⟨by simp, by simpa using hr, by simp, by simpa using hc⟩
  · rintro ⟨h1, h2, h3, h4⟩
    refine ⟨rc.1.toNat, by omega, rc.2.toNat, by omega, ?_⟩
    rw [Int.toNat_of_nonneg h1, Int.toNat_of_nonneg h3]

theorem visitedCells_mem (map : GridMap) (p : Params) (rc : ℤ × ℤ) :
    rc ∈ visitedCells map p ↔ windowInside map p rc = true := by
  unfold visitedCells
  rw [List.mem_filter]
  constructor
  · exact And.right
  · intro h
    exact ⟨(allCells_mem _ _ rc).mpr (windowInside_bounds map p rc h), h⟩

theorem allCells_nodup (rows cols : ℕ) : (allCells rows cols).Nodup := by
  unfold allCells
  rw [List.nodup_flatMap]
  constructor
  · intro r _
    refine List.Nodup.map ?_ (List.nodup_range _)
    intro a b hab
    have := congrArg Prod.snd hab
    simpa using this
  · have hpw : List.Pairwise (· ≠ ·) (List.range rows) := List.nodup_range rows
    refine hpw.imp ?_
    intro a b hab x hx1 hx2
    simp only [List.mem_map, List.mem_range] at hx1 hx2
    obtain ⟨c1, _, rfl⟩ := hx1
    obtain ⟨c2, _, heq⟩ := hx2
    have := congrArg Prod.fst heq
    simp only at this
    exact hab (by exact_mod_cast this.symm)

theorem visitedCells_nodup (map : GridMap) (p : Params) : (visitedCells map p).Nodup :=
  (allCells_nodup map.rows map.cols).filter _

theorem scanFold_mask_untouched (E : Externals) (p : Params) (map : GridMap) :
    ∀ (cells : List (ℤ × ℤ)) (s : (ℤ → Vec3) × (ℤ → ℤ → Bool)) (r c : ℤ),
      (r, c) ∉ cells →
      (cells.foldl (scanStep E p map) s).2 r c = s.2 r c := by
  intro cells
  induction cells with
  | nil => intro s r c _; rfl
  | cons rc0 cs ih =>
      intro s r c h
      simp only [List.foldl_cons]
      rw [ih _ r c (fun hx => h (List.mem_cons_of_mem rc0 hx))]
      have hne : (r, c) ≠ rc0 := fun hx => h (hx ▸ List.mem_cons_self rc0 cs)
      simp only [scanStep]
      rcases hm : windowBlock map p rc0 (kernelMiddle p) (kernelMiddle p) with _ | hgt
      · simp only [updMask]
        rw [if_neg hne]
      · dsimp only
        simp only [updMask]
        rw [if_neg hne]

theorem scanFold_norm_untouched (E : Externals) (p : Params) (map : GridMap) :
    ∀ (cells : List (ℤ × ℤ)) (s : (ℤ → Vec3) × (ℤ → ℤ → Bool)) (idx : ℤ),
      (∀ rc2 ∈ cells, getLinearIndex map.rows rc2.1 rc2.2 ≠ idx) →
      (cells.foldl (scanStep E p map) s).1 idx = s.1 idx := by
  intro cells
  induction cells with
  | nil => intro s idx _; rfl
  | cons rc0 cs ih =>
      intro s idx h
      simp only [List.foldl_cons]
      rw [ih _ idx (fun rc2 hx => h rc2 (List.mem_cons_of_mem rc0 hx))]
      have hne := h rc0 (List.mem_cons_self rc0 cs)
      simp only [scanStep]
      rcases hm : windowBlock map p rc0 (kernelMiddle p) (kernelMiddle p) with _ | hgt
      · rfl
      · dsimp only
        simp only [updLin]
        rw [if_neg (fun hx => hne hx.symm)]

theorem scanFold_at (E : Externals) (p : Params) (map : GridMap) :
    ∀ (cells : List (ℤ × ℤ)) (s : (ℤ → Vec3) × (ℤ → ℤ → Bool)) (rc : ℤ × ℤ),
      rc ∈ cells → cells.Nodup →
      (∀ rc2 ∈ cells, 0 ≤ rc2.1 ∧ rc2.1 < map.rows ∧ 0 ≤ rc2.2 ∧ rc2.2 < map.cols) →
      ((map.height rc.1 rc.2 = none →
          (cells.foldl (scanStep E p map) s).2 rc.1 rc.2 = false) ∧
        (∀ hgt : ℚ, map.height rc.1 rc.2 = some hgt →
          (cells.foldl (scanStep E p map) s).2 rc.1 rc.2 =
            isLocallyPlanar E p
              (computeNormalAndErrorForWindow E p map.resolution (windowBlock map p rc)).1
              (computeNormalAndErrorForWindow E p map.resolution (windowBlock map p rc)).2 ∧
          (cells.foldl (scanStep E p map)  s).1 (getLinearIndex map.rows rc.1 rc.2) =
            (computeNormalAndErrorForWindow E p map.resolution (windowBlock map p rc)).1)) := by
  intro cells
  induction cells with
  | nil => intro s rc h; exact absurd h (List.not_mem_nil rc)
  | cons rc0 cs ih =>
      intro s rc hmem hnd hbounds
      rcases List.mem_cons.mp hmem with rfl | hmem2
      · have hninrest : rc ∉ cs := (List.nodup_cons.mp hnd).1
        have hlinrest : ∀ rc2 ∈ cs,
            getLinearIndex map.rows rc2.1 rc2.2 ≠ getLinearIndex map.rows rc.1 rc.2 := by
          intro rc2 h2 heq
          obtain ⟨hb1, hb2, hb3, hb4⟩ := hbounds rc2 (List.mem_cons_of_mem rc h2)
          obtain ⟨hc1, hc2, hc3, hc4⟩ := hbounds rc (List.mem_cons_self rc cs)
          obtain ⟨hre, hce⟩ := getLinearIndex_inj map.rows rc2.1 rc2.2 rc.1 rc.2
            hb1 hb2 hc1 hc2 heq
          exact hninrest (Prod.ext hre hce ▸ h2)
        simp only [List.foldl_cons]
        constructor
        · intro hnone
          rw [scanFold_mask_untouched E p map cs _ rc.1 rc.2 (by simpa using hninrest)]
          simp only [scanStep]
          rcases hm : windowBlock map p rc (kernelMiddle p) (kernelMiddle p) with _ | hg
          · simp [updMask]
          · exfalso
            rw [windowBlock_middle, hnone] at hm
            exact Option.noConfusion hm
        · intro hgt hsome
          constructor
          · rw [scanFold_mask_untouched E p map cs _ rc.1 rc.2 (by simpa using hninrest)]
            simp only [scanStep]
            rcases hm : windowBlock map p rc (kernelMiddle p) (kernelMiddle p) with _ | hg
            · exfalso
              rw [windowBlock_middle, hsome] at hm
              exact Option.noConfusion hm
            · dsimp only
              simp [updMask]
          · rw [scanFold_norm_untouched E p map cs _ _ hlinrest]
            simp only [scanStep]
            rcases hm : windowBlock map p rc (kernelMiddle p) (kernelMiddle p) with _ | hg
            · exfalso
              rw [windowBlock_middle, hsome] at hm
              exact Option.noConfusion hm
            · dsimp only
              simp [updLin]
      · simp only [List.foldl_cons]
        exact ih _ rc hmem2 (List.nodup_cons.mp hnd).2
          (fun rc2 h2 => hbounds rc2 (List.mem_cons_of_mem rc0 h2))

/-- Counterexample to C3 as stated: on an all-finite 3×3 raster with
kernel size 3, the boundary cell (0,0) has finite height and the
spec-side windowed fit over its in-raster neighborhood classifies it
locally planar — yet after the scan its mask entry is still the
initial false and its normal entry is still the initial zero vector,
because the INSIDE-mode sliding-window iterator never visits cells
whose window leaves the raster. -/
theorem c3_counterexample :
    map3.height 0 0 = some 0 ∧
      isLocallyPlanar Ewit paramsK3 (spec_windowNormalAt Ewit paramsK3 map3 0 0).1
        (spec_windowNormalAt Ewit paramsK3 map3 0 0).2 = true ∧
      (slidingWindowScan Ewit paramsK3 map3 (fun _ => Vec3.zero) (fun _ _ => false)).2 0 0 =
        false ∧
      (slidingWindowScan Ewit paramsK3 map3 (fun _ => Vec3.zero) (fun _ _ => false)).1
        (getLinearIndex map3.rows 0 0) = Vec3.zero := by
  refine ⟨rfl, by decide, by decide, by decide⟩

/-- C3 amended: the sliding-window scan (EdgeHandling::INSIDE) visits
exactly the cells whose full K×K window lies inside the raster.  For a
visited cell it writes the mask entry (false when the cell's height is
non-finite, the local-planarity classification of the full window
block otherwise) and, when the height is finite, the computed window
normal into the per-cell buffer.  A cell whose window leaves the
raster is skipped entirely: its mask entry keeps the initial false and
its normal-buffer entry keeps the initial zero-fill value. -/
theorem c3_detector_visits_inside_windows_only (E : Externals) (p : Params) (map : GridMap)
    (r c : ℤ) :
    (windowInside map p (r, c) = true →
      ((map.height r c = none →
        (slidingWindowScan E p map (fun _ => Vec3.zero) (fun _ _ => false)).2 r c = false) ∧
      (∀ hgt : ℚ, map.height r c = some hgt →
        (slidingWindowScan E p map (fun _ => Vec3.zero) (fun _ _ => false)).2 r c =
          isLocallyPlanar E p
            (computeNormalAndErrorForWindow E p map.resolution (windowBlock map p (r, c))).1
            (computeNormalAndErrorForWindow E p map.resolution (windowBlock map p (r, c))).2 ∧
        (slidingWindowScan E p map (fun _ => Vec3.zero) (fun _ _ => false)).1
            (getLinearIndex map.rows r c) =
          (computeNormalAndErrorForWindow E p map.resolution (windowBlock map p (r, c))).1))) ∧
    (windowInside map p (r, c) = false →
      (slidingWindowScan E p map (fun _ => Vec3.zero) (fun _ _ => false)).2 r c = false ∧
      (0 ≤ r → r < map.rows → 0 ≤ c → c < map.cols →
        (slidingWindowScan E p map (fun _ => Vec3.zero) (fun _ _ => false)).1
          (getLinearIndex map.rows r c) = Vec3.zero)) := by
  constructor
  · intro hin
    have hmem : (r, c) ∈ visitedCells map p := (visitedCells_mem map p (r, c)).mpr hin
    exact scanFold_at E p map (visitedCells map p) (fun _ => Vec3.zero, fun _ _ => false)
      (r, c) hmem (visitedCells_nodup map p)
      (fun rc2 h2 => windowInside_bounds map p rc2 ((visitedCells_mem map p rc2).mp h2))
  · intro hout
    have hnm : (r, c) ∉ visitedCells map p := by
      intro hx
      rw [(visitedCells_mem map p (r, c)).mp hx] at hout
      exact Bool.noConfusion hout
    constructor
    · exact scanFold_mask_untouched E p map (visitedCells map p) _ r c hnm
    · intro h1 h2 h3 h4
      refine scanFold_norm_untouched E p map (visitedCells map p) _ _ ?_
      intro rc2 hrc2 heq
      obtain ⟨hb1, hb2, hb3, hb4⟩ :=
        windowInside_bounds map p rc2 ((visitedCells_mem map p rc2).mp hrc2)
      obtain ⟨hre, hce⟩ := getLinearIndex_inj map.rows rc2.1 rc2.2 r c hb1 hb2 h1 h2 heq
      apply hnm
      have hrc : rc2 = (r, c) := Prod.ext hre hce
      rw [← hrc]
      exact hrc2

/-- Witness for the amended C3: on the 3×3 map the interior cell (1,1)
is visited and its mask entry equals the window classification. -/
theorem c3_detector_visits_inside_windows_only_wit :
    (slidingWindowScan Ewit paramsK3 map3 (fun _ => Vec3.zero) (fun _ _ => false)).2 1 1 =
      isLocallyPlanar Ewit paramsK3
        (computeNormalAndErrorForWindow Ewit paramsK3 map3.resolution
          (windowBlock map3 paramsK3 (1, 1))).1
        (computeNormalAndErrorForWindow Ewit paramsK3 map3.resolution
          (windowBlock map3 paramsK3 (1, 1))).2 :=
  (((c3_detector_visits_inside_windows_only Ewit paramsK3 map3 1 1).1 (by decide)).2 0 rfl).1

end SWPE
